import Mathlib

set_option maxHeartbeats 1000000

/-!
# Verification of the arduinolibserver core scripts

Shallow embedding of the marker-discovery / neutralize / register pipeline
implemented in `L1_check_server_impl.py`, `L2_comment_server_impl.py` and
`L3_process_and_register.py`.

Modelling conventions:
* file content is a list of lines, each line a `List Char` (as produced by
  Python `readlines()`, so a line normally carries its trailing newline);
* the regex character classes `\s` and `\w` and Python `str.strip()` are
  modelled over their ASCII meaning;
* the regexes of the scripts are deterministic (every greedy sub-pattern is
  followed by a literal whose first character the class cannot match), so they
  are embedded as direct scanning functions with the single optional-group
  backtrack point written out explicitly;
* the file system is an association list from resolved absolute paths
  (component lists) to nodes, and `Path.resolve()` is the identity on it;
* the replacement string of `pattern.sub` in `update_server_factory_init` is
  processed exactly as by CPython's `re._parser.parse_template` (escapes,
  octal escapes, numeric and `\g<...>` group references, and the exact
  `re.error`/`IndexError` message texts, over ASCII character
  classification), so a rejected template reaches the blanket `except` of
  that function as in the source;
* I/O is modelled as total: exceptions raised by `open`/`write` themselves
  (the final `except` clause of each script) are outside the embedding.
-/

/-- Character list of a string literal. -/
def chars (s : String) : List Char := s.toList

/-- Left brace character (written numerically). -/
def lb : Char := Char.ofNat 123

/-- Right brace character (written numerically). -/
def rb : Char := Char.ofNat 125

/-- Single-quote character (written numerically). -/
def squote : Char := Char.ofNat 39

/-- Backslash character (written numerically). -/
def bslash : Char := Char.ofNat 92

/-- The whitespace characters of the regex class `\s` and of `str.strip`
(ASCII fragment of the Python semantics). -/
def isWs (c : Char) : Bool :=
  c = ' ' || c = '\t' || c = '\n' || c = '\r' || c = Char.ofNat 11 || c = Char.ofNat 12

/-- The word characters of the regex class `\w` (ASCII fragment). -/
def isWord (c : Char) : Bool := c.isAlpha || c.isDigit || c = '_'

/-- Python `str.strip()`: drop whitespace from both ends. -/
def pyStrip (s : List Char) : List Char :=
  ((s.dropWhile isWs).reverse.dropWhile isWs).reverse

/-- Embedding of `extract_bracket_content` (L3 lines 18-28; the local copy in
L1 lines 56-66 is textually identical): strip the captured text, then drop the
first and last character when the text starts and ends with a double quote, or
starts and ends with a single quote (`content[1:-1]`). -/
def extract_bracket_content (content : List Char) : List Char :=
  let c := pyStrip content
  if (['"'].isPrefixOf c && ['"'].isSuffixOf c)
      || ([squote].isPrefixOf c && [squote].isSuffixOf c) then
    (c.drop 1).dropLast
  else
    c

lemma singleton_isPrefixOf_iff (c : Char) (l : List Char) :
    [c].isPrefixOf l = true ↔ l.head? = some c := by
  rw [List.isPrefixOf_iff_prefix]
  cases l with
  | nil => simp
  | cons a t => simp [List.cons_prefix_cons, eq_comm]

lemma singleton_isSuffixOf_iff (c : Char) (l : List Char) :
    [c].isSuffixOf l = true ↔ l.getLast? = some c := by
  show ([c].isPrefixOf l.reverse) = true ↔ l.getLast? = some c
  rw [singleton_isPrefixOf_iff, List.head?_reverse]

/-- C4 (amended): `extract_bracket_content` first trims the argument; when the
trimmed text both starts and ends with `"`, or both starts and ends with a
single quote — a test on the first and the last character only, so a trimmed
text consisting of one single quote character also qualifies — the first and
last characters are dropped; otherwise the trimmed text is returned verbatim.
In particular `"Foo"`, `'Foo'` and a padded unquoted `Foo` all map to `Foo`. -/
theorem extract_bracket_content_spec :
    (∀ s : List Char,
      extract_bracket_content s =
        (if ((pyStrip s).head? = some '"' ∧ (pyStrip s).getLast? = some '"')
            ∨ ((pyStrip s).head? = some squote ∧ (pyStrip s).getLast? = some squote)
         then ((pyStrip s).drop 1).dropLast else pyStrip s))
    ∧ extract_bracket_content (chars " \"Foo\" ") = chars "Foo"
    ∧ extract_bracket_content ([squote] ++ chars "Foo" ++ [squote]) = chars "Foo"
    ∧ extract_bracket_content (chars "  Foo ") = chars "Foo" := by
  refine ⟨fun s => ?_, by decide, by decide, by decide⟩
  have h1 := singleton_isPrefixOf_iff '"' (pyStrip s)
  have h2 := singleton_isSuffixOf_iff '"' (pyStrip s)
  have h3 := singleton_isPrefixOf_iff squote (pyStrip s)
  have h4 := singleton_isSuffixOf_iff squote (pyStrip s)
  rw [extract_bracket_content]
  split
  · rename_i h
    rw [if_pos]
    rcases Bool.or_eq_true_iff.mp h with h | h
    · exact Or.inl ⟨h1.mp (Bool.and_eq_true_iff.mp h).1, h2.mp (Bool.and_eq_true_iff.mp h).2⟩
    · exact Or.inr ⟨h3.mp (Bool.and_eq_true_iff.mp h).1, h4.mp (Bool.and_eq_true_iff.mp h).2⟩
  · rename_i h
    rw [if_neg]
    intro hc
    apply h
    rcases hc with ⟨ha, hb⟩ | ⟨ha, hb⟩
    · exact Bool.or_eq_true_iff.mpr (Or.inl (Bool.and_eq_true_iff.mpr ⟨h1.mpr ha, h2.mpr hb⟩))
    · exact Bool.or_eq_true_iff.mpr (Or.inr (Bool.and_eq_true_iff.mpr ⟨h3.mpr ha, h4.mpr hb⟩))

/-- C4 counterexample: the trimmed argument consisting of exactly one double
quote character is not wrapped in a matching *pair* of quotes (its length is
1), yet `extract_bracket_content` does not return it verbatim: it strips the
lone character and yields the empty string. -/
theorem extract_bracket_content_counterexample :
    pyStrip ['"'] = ['"'] ∧ (pyStrip ['"']).length = 1 ∧
      extract_bracket_content ['"'] = [] ∧
      extract_bracket_content ['"'] ≠ pyStrip ['"'] := by decide

/-- Greedy `\s+`: at least one whitespace character, then the whole run;
returns the remaining input.  (Every use site follows it with a literal whose
first character is not whitespace, so the greedy run is the only parse.) -/
def wsPlus : List Char → Option (List Char)
  | [] => none
  | c :: rest => if isWs c then some (rest.dropWhile isWs) else none

/-- Anchored matcher for the marker regex `ServerImpl\s*\(([^)]*)\)` at the
head of the input: returns the captured bracket content and the whole matched
text (group 2 of the L2/L3 pattern). -/
def matchMarkerHere (l : List Char) : Option (List Char × List Char) :=
  if (chars "ServerImpl").isPrefixOf l then
    let r1 := l.drop 10
    let gap := r1.takeWhile isWs
    match r1.dropWhile isWs with
    | '(' :: r2 =>
      let inner := r2.takeWhile (fun c => c != ')')
      match r2.dropWhile (fun c => c != ')') with
      | ')' :: _ => some (inner, chars "ServerImpl" ++ gap ++ '(' :: (inner ++ [')']))
      | _ => none
    | _ => none
  else none

/-- Leftmost search of `(\s*)(ServerImpl\s*\(([^)]*)\))` in a line
(`re.search`): scan for the first position whose suffix matches the marker;
group 1 is the maximal whitespace run immediately before that position.
Returns `(group 1, group 2, group 3)`, i.e. (indent, matched invocation,
bracket content).  The L1 pattern lacks the indent group but matches at the
same place, so this one search serves all three scripts. -/
def findMarkerAux : List Char → List Char → Option (List Char × List Char × List Char)
  | _, [] => none
  | revSeen, c :: rest =>
    match matchMarkerHere (c :: rest) with
    | some (inner, mac) => some ((revSeen.takeWhile isWs).reverse, mac, inner)
    | none => findMarkerAux (c :: revSeen) rest

/-- See `findMarkerAux`. -/
def findMarker (l : List Char) : Option (List Char × List Char × List Char) :=
  findMarkerAux [] l

/-- The tail `\s*:\s*public\s+IServer` of the class-declaration regex. -/
def afterColon (r : List Char) : Bool :=
  match r.dropWhile isWs with
  | [] => false
  | c :: r5 =>
    (c == ':') &&
      ((chars "public").isPrefixOf (r5.dropWhile isWs) &&
        (wsPlus ((r5.dropWhile isWs).drop 6)).elim false fun r7 =>
          (chars "IServer").isPrefixOf r7)

/-- Anchored matcher for `class\s+(\w+)(?:\s+final)?\s*:\s*public\s+IServer`
at the head of the input, returning the captured class name.  The regex is
deterministic except for the optional `(?:\s+final)?` group, whose two
alternatives are tried in the order the engine backtracks through them. -/
def matchClassHere (l : List Char) : Option (List Char) :=
  if (chars "class").isPrefixOf l then
    (wsPlus (l.drop 5)).bind fun r2 =>
      if (r2.takeWhile isWord).isEmpty then none
      else
        if ((wsPlus (r2.dropWhile isWord)).elim false fun rf =>
              (chars "final").isPrefixOf rf && afterColon (rf.drop 5))
            || afterColon (r2.dropWhile isWord) then
          some (r2.takeWhile isWord)
        else none
  else none

/-- Leftmost search of the class-declaration regex in a line (`re.search`). -/
def classCapture : List Char → Option (List Char)
  | [] => none
  | c :: rest =>
    match matchClassHere (c :: rest) with
    | some n => some n
    | none => classCapture rest

lemma isWs_mem_spec {c : Char} (h : isWs c = true) :
    c = ' ' ∨ c = '\t' ∨ c = '\n' ∨ c = '\r' ∨ c = Char.ofNat 11 ∨ c = Char.ofNat 12 := by
  have := h
  simp only [isWs, Bool.or_eq_true, decide_eq_true_eq] at this
  tauto

lemma isWord_isWs_false {c : Char} (h : isWord c = true) : isWs c = false := by
  cases hw : isWs c
  · rfl
  · rcases isWs_mem_spec hw with h1 | h1 | h1 | h1 | h1 | h1 <;> subst h1 <;>
      exact absurd h (by decide)

lemma isWs_ne_char {c d : Char} (h : isWs c = true) (hd : isWs d = false) : c ≠ d := by
  rintro rfl
  rw [h] at hd
  cases hd

lemma takeWhile_append_all {α} {p : α → Bool} {w r : List α}
    (hall : ∀ c ∈ w, p c = true) :
    (w ++ r).takeWhile p = w ++ r.takeWhile p := by
  induction w with
  | nil => rfl
  | cons a t ih =>
    rw [List.cons_append, List.takeWhile_cons, if_pos (hall a (List.mem_cons_self a t)),
      ih fun c hc => hall c (List.mem_cons_of_mem a hc), List.cons_append]

lemma dropWhile_append_all {α} {p : α → Bool} {w r : List α}
    (hall : ∀ c ∈ w, p c = true) :
    (w ++ r).dropWhile p = r.dropWhile p := by
  induction w with
  | nil => rfl
  | cons a t ih =>
    rw [List.cons_append, List.dropWhile_cons, if_pos (hall a (List.mem_cons_self a t))]
    exact ih fun c hc => hall c (List.mem_cons_of_mem a hc)

lemma dropWhile_eq_self_of_head {α} {p : α → Bool} {r : List α}
    (h : ∀ c, r.head? = some c → p c = false) : r.dropWhile p = r := by
  cases r with
  | nil => rfl
  | cons a t =>
    rw [List.dropWhile_cons, if_neg]
    simp [h a rfl]

lemma takeWhile_eq_nil_of_head {α} {p : α → Bool} {r : List α}
    (h : ∀ c, r.head? = some c → p c = false) : r.takeWhile p = [] := by
  cases r with
  | nil => rfl
  | cons a t =>
    rw [List.takeWhile_cons, if_neg]
    simp [h a rfl]

lemma head_dropWhile_false {α} (p : α → Bool) :
    ∀ (l : List α) (c : α), (l.dropWhile p).head? = some c → p c = false
  | [], c => by simp
  | a :: t, c => by
    rw [List.dropWhile_cons]
    split
    · exact head_dropWhile_false p t c
    · rename_i h
      intro hc
      obtain rfl := Option.some.inj hc
      exact Bool.eq_false_iff.mpr h

lemma dropWhile_decomp {α} (p : α → Bool) (l : List α) :
    ∃ w, l = w ++ l.dropWhile p ∧ (∀ c ∈ w, p c = true) := by
  exact ⟨l.takeWhile p, (List.takeWhile_append_dropWhile p l).symm,
    fun _ hc => List.mem_takeWhile_imp hc⟩

lemma wsPlus_sound {l r : List Char} (h : wsPlus l = some r) :
    ∃ w, l = w ++ r ∧ w ≠ [] ∧ (∀ c ∈ w, isWs c = true) ∧
      (∀ c, r.head? = some c → isWs c = false) := by
  cases l with
  | nil => cases h
  | cons a t =>
    simp only [wsPlus] at h
    split at h
    · rename_i ha
      obtain rfl := Option.some.inj h
      refine ⟨a :: t.takeWhile isWs, ?_, by simp, ?_, head_dropWhile_false isWs t⟩
      · rw [List.cons_append, List.takeWhile_append_dropWhile]
      · intro c hc
        rcases List.mem_cons.mp hc with rfl | hc
        · exact ha
        · exact List.mem_takeWhile_imp hc
    · cases h

lemma wsPlus_complete {w r : List Char} (hw : w ≠ []) (hall : ∀ c ∈ w, isWs c = true)
    (hr : ∀ c, r.head? = some c → isWs c = false) : wsPlus (w ++ r) = some r := by
  cases w with
  | nil => cases hw rfl
  | cons a t =>
    rw [List.cons_append]
    simp only [wsPlus, if_pos (hall a (List.mem_cons_self a t))]
    rw [dropWhile_append_all fun c hc => hall c (List.mem_cons_of_mem a hc),
      dropWhile_eq_self_of_head hr]

lemma isPrefixOf_decomp {w l : List Char} (h : w.isPrefixOf l = true) :
    l = w ++ l.drop w.length := by
  obtain ⟨t, ht⟩ := List.isPrefixOf_iff_prefix.mp h
  rw [← ht, List.drop_left]

lemma matchMarkerHere_sound {l inner mac : List Char}
    (h : matchMarkerHere l = some (inner, mac)) :
    ∃ gap rest, mac = chars "ServerImpl" ++ (gap ++ '(' :: (inner ++ [')'])) ∧
      l = mac ++ rest ∧ (∀ c ∈ gap, isWs c = true) ∧ (∀ c ∈ inner, c ≠ ')') := by
  simp only [matchMarkerHere] at h
  split at h
  · rename_i hp
    split at h
    · rename_i r2 heq
      split at h
      · rename_i rest' heq2
        simp only [Option.some.injEq, Prod.mk.injEq] at h
        obtain ⟨rfl, rfl⟩ := h
        refine ⟨(l.drop 10).takeWhile isWs, rest', rfl, ?_, ?_, ?_⟩
        · have hd := isPrefixOf_decomp hp
          rw [show (chars "ServerImpl").length = 10 from rfl] at hd
          have h1 : l.drop 10 = (l.drop 10).takeWhile isWs ++ ('(' :: r2) := by
            rw [← heq, List.takeWhile_append_dropWhile]
          have h2 : r2 = r2.takeWhile (fun c => c != ')') ++ (')' :: rest') := by
            rw [← heq2, List.takeWhile_append_dropWhile]
          conv_lhs => rw [hd, h1]
          conv_lhs => rw [h2]
          simp [List.append_assoc]
        · exact fun c hc => List.mem_takeWhile_imp hc
        · intro c hc
          have := List.mem_takeWhile_imp hc
          simpa using this
      · cases h
    · cases h
  · cases h

lemma findMarkerAux_sound (rest : List Char) :
    ∀ revSeen g1 mac inner, findMarkerAux revSeen rest = some (g1, mac, inner) →
      ∃ pre post gap,
        revSeen.reverse ++ rest = pre ++ g1 ++ (mac ++ post) ∧
        (∀ c ∈ g1, isWs c = true) ∧
        (pre = [] ∨ ∃ d ds, pre = ds ++ [d] ∧ isWs d = false) ∧
        mac = chars "ServerImpl" ++ (gap ++ '(' :: (inner ++ [')'])) ∧
        (∀ c ∈ gap, isWs c = true) := by
  induction rest with
  | nil => intro revSeen g1 mac inner h; cases h
  | cons c rest ih =>
    intro revSeen g1 mac inner h
    rw [findMarkerAux] at h
    split at h
    · rename_i inner' mac' heq
      simp only [Option.some.injEq, Prod.mk.injEq] at h
      obtain ⟨rfl, rfl, rfl⟩ := h
      obtain ⟨gap, rest2, hmac, hdecomp, hgap, _⟩ := matchMarkerHere_sound heq
      refine ⟨(revSeen.dropWhile isWs).reverse, rest2, gap, ?_, ?_, ?_, hmac, hgap⟩
      · have hsplit : revSeen.reverse =
            (revSeen.dropWhile isWs).reverse ++ (revSeen.takeWhile isWs).reverse := by
          rw [← List.reverse_append, List.takeWhile_append_dropWhile]
        rw [hsplit, hdecomp]
      · exact fun x hx => List.mem_takeWhile_imp (List.mem_reverse.mp hx)
      · cases hd : revSeen.dropWhile isWs with
        | nil => left; simp [hd]
        | cons d ds =>
          right
          exact ⟨d, ds.reverse, by simp [hd],
            head_dropWhile_false isWs revSeen d (by simp [hd])⟩
    · obtain ⟨pre, post, gap, he, h2, h3, h4, h5⟩ := ih (c :: revSeen) g1 mac inner h
      refine ⟨pre, post, gap, ?_, h2, h3, h4, h5⟩
      rw [show revSeen.reverse ++ (c :: rest) = (c :: revSeen).reverse ++ rest by simp]
      exact he

lemma findMarker_sound {l g1 mac inner : List Char}
    (h : findMarker l = some (g1, mac, inner)) :
    ∃ pre post gap,
      l = pre ++ g1 ++ (mac ++ post) ∧ (∀ c ∈ g1, isWs c = true) ∧
      (pre = [] ∨ ∃ d ds, pre = ds ++ [d] ∧ isWs d = false) ∧
      mac = chars "ServerImpl" ++ (gap ++ '(' :: (inner ++ [')'])) ∧
      (∀ c ∈ gap, isWs c = true) := by
  have := findMarkerAux_sound l [] g1 mac inner h
  simpa using this

lemma isPrefixOf_decomp' {w l : List Char} (h : w.isPrefixOf l = true) :
    ∃ t, l = w ++ t :=
  ⟨l.drop w.length, isPrefixOf_decomp h⟩

lemma isPrefixOf_append_self (w r : List Char) : w.isPrefixOf (w ++ r) = true :=
  List.isPrefixOf_iff_prefix.mpr ⟨r, rfl⟩

lemma head?_append_left {α} {l r : List α} (h : l ≠ []) : (l ++ r).head? = l.head? := by
  cases l with
  | nil => exact absurd rfl h
  | cons a t => rfl

lemma isWs_isWord_false {c : Char} (h : isWs c = true) : isWord c = false := by
  rcases isWs_mem_spec h with h1 | h1 | h1 | h1 | h1 | h1 <;> subst h1 <;> decide

lemma getLast?_mem_list {α} {l : List α} {a : α} (h : l.getLast? = some a) : a ∈ l := by
  have hm : a ∈ l.getLast? := by rw [h]; rfl
  obtain ⟨hne, heq⟩ := List.mem_getLast?_eq_getLast hm
  rw [heq]
  exact List.getLast_mem hne

/-- Exact-shape characterization of a class-declaration regex match: `m` is
precisely the text consumed by
`class\s+(\w+)(?:\s+final)?\s*:\s*public\s+IServer`, capture `name`. -/
def ClassExact (m name : List Char) : Prop :=
  ∃ w1 fp w2 w3 w4,
    m = chars "class" ++ (w1 ++ (name ++ (fp ++ (w2 ++
        (':' :: (w3 ++ (chars "public" ++ (w4 ++ chars "IServer")))))))) ∧
    w1 ≠ [] ∧ (∀ c ∈ w1, isWs c = true) ∧
    name ≠ [] ∧ (∀ c ∈ name, isWord c = true) ∧
    (fp = [] ∨ ∃ wf, fp = wf ++ chars "final" ∧ wf ≠ [] ∧ (∀ c ∈ wf, isWs c = true)) ∧
    (∀ c ∈ w2, isWs c = true) ∧ (∀ c ∈ w3, isWs c = true) ∧
    w4 ≠ [] ∧ (∀ c ∈ w4, isWs c = true)

lemma afterColon_sound {r : List Char} (h : afterColon r = true) :
    ∃ w2 w3 w4 b,
      r = w2 ++ (':' :: (w3 ++ (chars "public" ++ (w4 ++ (chars "IServer" ++ b))))) ∧
      (∀ c ∈ w2, isWs c = true) ∧ (∀ c ∈ w3, isWs c = true) ∧
      w4 ≠ [] ∧ (∀ c ∈ w4, isWs c = true) := by
  rw [afterColon] at h
  split at h
  · cases h
  · rename_i c r5 heq
    simp only [Bool.and_eq_true, beq_iff_eq] at h
    obtain ⟨rfl, hpub, hws⟩ := h
    cases hw : wsPlus ((r5.dropWhile isWs).drop 6) with
    | none => rw [hw] at hws; cases hws
    | some r7 =>
      rw [hw] at hws
      simp only [Option.elim] at hws
      obtain ⟨w2, hw2eq, hw2⟩ := dropWhile_decomp isWs r
      obtain ⟨w3, hw3eq, hw3⟩ := dropWhile_decomp isWs r5
      obtain ⟨w4, h64, h4ne, h4ws, _⟩ := wsPlus_sound hw
      obtain ⟨b, hb⟩ := isPrefixOf_decomp' hws
      have hpub' : r5.dropWhile isWs = chars "public" ++ (r5.dropWhile isWs).drop 6 := by
        have h0 := isPrefixOf_decomp hpub
        rwa [show (chars "public").length = 6 from rfl] at h0
      refine ⟨w2, w3, w4, b, ?_, hw2, hw3, h4ne, h4ws⟩
      calc r = w2 ++ r.dropWhile isWs := hw2eq
        _ = w2 ++ (':' :: r5) := by rw [heq]
        _ = w2 ++ (':' :: (w3 ++ r5.dropWhile isWs)) := by conv_lhs => rw [hw3eq]
        _ = w2 ++ (':' :: (w3 ++ (chars "public" ++ (r5.dropWhile isWs).drop 6))) := by
            conv_lhs => rw [hpub']
        _ = w2 ++ (':' :: (w3 ++ (chars "public" ++ (w4 ++ r7)))) := by rw [h64]
        _ = w2 ++ (':' :: (w3 ++ (chars "public" ++ (w4 ++ (chars "IServer" ++ b))))) := by
            rw [hb]

lemma afterColon_complete {w2 w3 w4 b : List Char}
    (h2 : ∀ c ∈ w2, isWs c = true) (h3 : ∀ c ∈ w3, isWs c = true)
    (h4ne : w4 ≠ []) (h4 : ∀ c ∈ w4, isWs c = true) :
    afterColon (w2 ++ (':' :: (w3 ++ (chars "public" ++
      (w4 ++ (chars "IServer" ++ b)))))) = true := by
  have e1 : (w2 ++ (':' :: (w3 ++ (chars "public" ++
        (w4 ++ (chars "IServer" ++ b)))))).dropWhile isWs
      = ':' :: (w3 ++ (chars "public" ++ (w4 ++ (chars "IServer" ++ b)))) := by
    rw [dropWhile_append_all h2, List.dropWhile_cons, if_neg (by decide)]
  have e2 : (w3 ++ (chars "public" ++ (w4 ++ (chars "IServer" ++ b)))).dropWhile isWs
      = chars "public" ++ (w4 ++ (chars "IServer" ++ b)) := by
    rw [dropWhile_append_all h3]
    refine dropWhile_eq_self_of_head ?_
    intro c hc
    rw [show chars "public" ++ (w4 ++ (chars "IServer" ++ b))
        = 'p' :: (chars "ublic" ++ (w4 ++ (chars "IServer" ++ b))) from rfl] at hc
    obtain rfl := Option.some.inj hc
    decide
  have e3 : (chars "public" ++ (w4 ++ (chars "IServer" ++ b))).drop 6
      = w4 ++ (chars "IServer" ++ b) := by
    rw [show (6 : Nat) = (chars "public").length from rfl, List.drop_left]
  have e4 : wsPlus (w4 ++ (chars "IServer" ++ b)) = some (chars "IServer" ++ b) := by
    refine wsPlus_complete h4ne h4 ?_
    intro c hc
    rw [show chars "IServer" ++ b = 'I' :: (chars "Server" ++ b) from rfl] at hc
    obtain rfl := Option.some.inj hc
    decide
  rw [afterColon, e1]
  simp only [beq_self_eq_true, Bool.true_and, e2, e3, e4, Option.elim, Bool.and_eq_true]
  exact ⟨isPrefixOf_append_self _ _, isPrefixOf_append_self _ _⟩

lemma matchClassHere_sound {l name : List Char} (h : matchClassHere l = some name) :
    ∃ m b, l = m ++ b ∧ ClassExact m name := by
  rw [matchClassHere] at h
  split at h
  · rename_i hcl
    cases hw : wsPlus (l.drop 5) with
    | none => rw [hw] at h; cases h
    | some r2 =>
      rw [hw, Option.some_bind] at h
      split at h
      · cases h
      · rename_i hne
        split at h
        · rename_i hcond
          obtain rfl := Option.some.inj h
          have hl : l = chars "class" ++ l.drop 5 := by
            have h0 := isPrefixOf_decomp hcl
            rwa [show (chars "class").length = 5 from rfl] at h0
          obtain ⟨w1, h1eq, h1ne, h1ws, _⟩ := wsPlus_sound hw
          have hsplit2 : r2 = r2.takeWhile isWord ++ r2.dropWhile isWord :=
            (List.takeWhile_append_dropWhile _ _).symm
          have hnamene : r2.takeWhile isWord ≠ [] := by
            intro h0
            rw [h0] at hne
            exact hne rfl
          have hnamew : ∀ c ∈ r2.takeWhile isWord, isWord c = true :=
            fun _ hc => List.mem_takeWhile_imp hc
          rcases Bool.or_eq_true_iff.mp hcond with hfin | hcol
          · cases hwf : wsPlus (r2.dropWhile isWord) with
            | none => rw [hwf] at hfin; cases hfin
            | some rf =>
              rw [hwf] at hfin
              simp only [Option.elim, Bool.and_eq_true] at hfin
              obtain ⟨hfpre, hcol2⟩ := hfin
              obtain ⟨w2, w3, w4, b, hceq, hw2, hw3, h4ne, h4ws⟩ := afterColon_sound hcol2
              obtain ⟨wf, hwfeq, hwfne, hwfws, _⟩ := wsPlus_sound hwf
              have hf5 : rf = chars "final" ++ rf.drop 5 := by
                have h0 := isPrefixOf_decomp hfpre
                rwa [show (chars "final").length = 5 from rfl] at h0
              refine ⟨chars "class" ++ (w1 ++ ((r2.takeWhile isWord) ++ ((wf ++ chars "final")
                ++ (w2 ++ (':' :: (w3 ++ (chars "public" ++ (w4 ++ chars "IServer")))))))),
                b, ?_, ?_⟩
              · conv_lhs => rw [hl, h1eq]
                conv_lhs => rw [hsplit2]
                conv_lhs => rw [hwfeq]
                conv_lhs => rw [hf5]
                conv_lhs => rw [hceq]
                simp [List.append_assoc]
              · exact ⟨w1, wf ++ chars "final", w2, w3, w4, rfl, h1ne, h1ws, hnamene,
                  hnamew, Or.inr ⟨wf, rfl, hwfne, hwfws⟩, hw2, hw3, h4ne, h4ws⟩
          · obtain ⟨w2, w3, w4, b, hceq, hw2, hw3, h4ne, h4ws⟩ := afterColon_sound hcol
            refine ⟨chars "class" ++ (w1 ++ ((r2.takeWhile isWord) ++ ([]
              ++ (w2 ++ (':' :: (w3 ++ (chars "public" ++ (w4 ++ chars "IServer")))))))),
              b, ?_, ?_⟩
            · conv_lhs => rw [hl, h1eq]
              conv_lhs => rw [hsplit2]
              conv_lhs => rw [hceq]
              simp [List.append_assoc]
            · exact ⟨w1, [], w2, w3, w4, rfl, h1ne, h1ws, hnamene,
                hnamew, Or.inl rfl, hw2, hw3, h4ne, h4ws⟩
        · cases h
  · cases h

lemma matchClassHere_complete {m name : List Char} (hm : ClassExact m name)
    (b : List Char) : matchClassHere (m ++ b) = some name := by
  obtain ⟨w1, fp, w2, w3, w4, rfl, h1ne, h1ws, hnne, hnw, hfp, hw2, hw3, h4ne, h4ws⟩ := hm
  have hshape : (chars "class" ++ (w1 ++ (name ++ (fp ++ (w2 ++
        (':' :: (w3 ++ (chars "public" ++ (w4 ++ chars "IServer"))))))))) ++ b
      = chars "class" ++ (w1 ++ (name ++ (fp ++ (w2 ++
        (':' :: (w3 ++ (chars "public" ++ (w4 ++ (chars "IServer" ++ b))))))))) := by
    simp [List.append_assoc]
  rw [hshape]
  have hTAILhead : ∀ c, (fp ++ (w2 ++ (':' :: (w3 ++ (chars "public" ++
      (w4 ++ (chars "IServer" ++ b))))))).head? = some c → isWord c = false := by
    intro c hc
    rcases hfp with rfl | ⟨wf, rfl, hwfne, hwfws⟩
    · rw [List.nil_append] at hc
      cases hw2e : w2 with
      | nil =>
        rw [hw2e, List.nil_append] at hc
        obtain rfl := Option.some.inj hc
        decide
      | cons x t =>
        rw [hw2e] at hc
        obtain rfl := Option.some.inj hc
        exact isWs_isWord_false (hw2 x (by rw [hw2e]; exact List.mem_cons_self x t))
    · obtain ⟨x, t, rfl⟩ := List.exists_cons_of_ne_nil hwfne
      rw [show ((x :: t ++ chars "final") ++ (w2 ++ (':' :: (w3 ++ (chars "public" ++
        (w4 ++ (chars "IServer" ++ b))))))).head? = some x from rfl] at hc
      obtain rfl := Option.some.inj hc
      exact isWs_isWord_false (hwfws x (List.mem_cons_self x t))
  have e0 : (chars "class").isPrefixOf (chars "class" ++ (w1 ++ (name ++ (fp ++ (w2 ++
      (':' :: (w3 ++ (chars "public" ++ (w4 ++ (chars "IServer" ++ b)))))))))) = true :=
    isPrefixOf_append_self _ _
  have e1 : (chars "class" ++ (w1 ++ (name ++ (fp ++ (w2 ++
      (':' :: (w3 ++ (chars "public" ++ (w4 ++ (chars "IServer" ++ b)))))))))).drop 5
      = w1 ++ (name ++ (fp ++ (w2 ++
        (':' :: (w3 ++ (chars "public" ++ (w4 ++ (chars "IServer" ++ b)))))))) := by
    rw [show (5 : Nat) = (chars "class").length from rfl, List.drop_left]
  have e2 : wsPlus (w1 ++ (name ++ (fp ++ (w2 ++
      (':' :: (w3 ++ (chars "public" ++ (w4 ++ (chars "IServer" ++ b))))))))) =
      some (name ++ (fp ++ (w2 ++
        (':' :: (w3 ++ (chars "public" ++ (w4 ++ (chars "IServer" ++ b)))))))) := by
    refine wsPlus_complete h1ne h1ws ?_
    intro c hc
    rw [head?_append_left hnne] at hc
    obtain ⟨x, t, rfl⟩ := List.exists_cons_of_ne_nil hnne
    obtain rfl := Option.some.inj hc
    exact isWord_isWs_false (hnw x (List.mem_cons_self x t))
  have e3 : (name ++ (fp ++ (w2 ++ (':' :: (w3 ++ (chars "public" ++
      (w4 ++ (chars "IServer" ++ b)))))))).takeWhile isWord = name := by
    rw [takeWhile_append_all hnw, takeWhile_eq_nil_of_head hTAILhead, List.append_nil]
  have e4 : (name ++ (fp ++ (w2 ++ (':' :: (w3 ++ (chars "public" ++
      (w4 ++ (chars "IServer" ++ b)))))))).dropWhile isWord
      = fp ++ (w2 ++ (':' :: (w3 ++ (chars "public" ++ (w4 ++ (chars "IServer" ++ b)))))) := by
    rw [dropWhile_append_all hnw, dropWhile_eq_self_of_head hTAILhead]
  rw [matchClassHere, if_pos e0, e1, e2, Option.some_bind, e3, e4]
  rw [if_neg (by simp [hnne])]
  have hcondtrue : (((wsPlus (fp ++ (w2 ++ (':' :: (w3 ++ (chars "public" ++
      (w4 ++ (chars "IServer" ++ b)))))))).elim false fun rf =>
        (chars "final").isPrefixOf rf && afterColon (rf.drop 5))
      || afterColon (fp ++ (w2 ++ (':' :: (w3 ++ (chars "public" ++
        (w4 ++ (chars "IServer" ++ b)))))))) = true := by
    rcases hfp with rfl | ⟨wf, rfl, hwfne, hwfws⟩
    · rw [List.nil_append]
      exact Bool.or_eq_true_iff.mpr (Or.inr (afterColon_complete hw2 hw3 h4ne h4ws))
    · refine Bool.or_eq_true_iff.mpr (Or.inl ?_)
      have ef : wsPlus ((wf ++ chars "final") ++ (w2 ++ (':' :: (w3 ++ (chars "public" ++
          (w4 ++ (chars "IServer" ++ b))))))) = some (chars "final" ++ (w2 ++
            (':' :: (w3 ++ (chars "public" ++ (w4 ++ (chars "IServer" ++ b))))))) := by
        rw [List.append_assoc]
        refine wsPlus_complete hwfne hwfws ?_
        intro c hc
        rw [show chars "final" ++ (w2 ++ (':' :: (w3 ++ (chars "public" ++
          (w4 ++ (chars "IServer" ++ b)))))) = 'f' :: (chars "inal" ++ (w2 ++
            (':' :: (w3 ++ (chars "public" ++ (w4 ++ (chars "IServer" ++ b)))))))
          from rfl] at hc
        obtain rfl := Option.some.inj hc
        decide
      rw [ef]
      simp only [Option.elim, Bool.and_eq_true]
      constructor
      · exact isPrefixOf_append_self _ _
      · rw [show (5 : Nat) = (chars "final").length from rfl, List.drop_left]
        exact afterColon_complete hw2 hw3 h4ne h4ws
  rw [if_pos hcondtrue]

lemma classCapture_sound {l name : List Char} (h : classCapture l = some name) :
    ∃ a m b, l = a ++ (m ++ b) ∧ ClassExact m name := by
  induction l with
  | nil => cases h
  | cons c rest ih =>
    rw [classCapture] at h
    split at h
    · rename_i n heq
      obtain rfl := Option.some.inj h
      obtain ⟨m, b, hmb, hex⟩ := matchClassHere_sound heq
      exact ⟨[], m, b, by simp [hmb], hex⟩
    · obtain ⟨a, m, b, he, hex⟩ := ih h
      exact ⟨c :: a, m, b, by simp [he], hex⟩

lemma classCapture_here {l : List Char} (h : (matchClassHere l).isSome = true) :
    (classCapture l).isSome = true := by
  cases l with
  | nil => rw [show matchClassHere [] = none from rfl] at h; cases h
  | cons c rest =>
    rw [classCapture]
    split
    · rfl
    · rename_i heq
      rw [heq] at h
      cases h

lemma classCapture_complete {m name : List Char} (hm : ClassExact m name) :
    ∀ (a b : List Char), (classCapture (a ++ (m ++ b))).isSome = true := by
  intro a
  induction a with
  | nil =>
    intro b
    rw [List.nil_append]
    exact classCapture_here (by rw [matchClassHere_complete hm b]; rfl)
  | cons x a ih =>
    intro b
    rw [List.cons_append, classCapture]
    split
    · rfl
    · exact ih b

lemma ClassExact_head {m name : List Char} (hm : ClassExact m name) :
    m.head? = some 'c' := by
  obtain ⟨w1, fp, w2, w3, w4, rfl, _⟩ := hm
  rfl

lemma ClassExact_getLast {m name : List Char} (hm : ClassExact m name) :
    m.getLast? = some 'r' := by
  obtain ⟨w1, fp, w2, w3, w4, rfl, _⟩ := hm
  have hsh : chars "class" ++ (w1 ++ (name ++ (fp ++ (w2 ++
        (':' :: (w3 ++ (chars "public" ++ (w4 ++ chars "IServer"))))))))
      = (chars "class" ++ (w1 ++ (name ++ (fp ++ (w2 ++
        (':' :: (w3 ++ (chars "public" ++ w4)))))))) ++ chars "IServer" := by
    simp [List.append_assoc]
  rw [hsh, List.getLast?_append]
  rfl

lemma ClassExact_ne_nil {m name : List Char} (hm : ClassExact m name) : m ≠ [] := by
  intro h
  have := ClassExact_head hm
  rw [h] at this
  cases this

/-- If `m` sits as an infix of `pre ++ mid ++ post` but its first character
never occurs in `pre` and its last character never occurs in `post`, then `m`
is an infix of `mid`. -/
lemma getLast?_isSome_of_ne_nil {α} : ∀ {l : List α}, l ≠ [] → ∃ c, l.getLast? = some c
  | [], h => absurd rfl h
  | [a], _ => ⟨a, rfl⟩
  | a :: b :: t, _ => by
    obtain ⟨c, hc⟩ := @getLast?_isSome_of_ne_nil _ (b :: t) (by simp)
    exact ⟨c, by rw [List.getLast?_cons_cons, hc]⟩

lemma getLast?_append_right {α} {x y : List α} (hy : y ≠ []) :
    (x ++ y).getLast? = y.getLast? := by
  obtain ⟨c, hc⟩ := getLast?_isSome_of_ne_nil hy
  rw [List.getLast?_append, hc]
  rfl

lemma middle_infix {α} {pre mid post a m b : List α} (hm : m ≠ [])
    (he : pre ++ (mid ++ post) = a ++ (m ++ b))
    (h1 : ∀ c, m.head? = some c → c ∉ pre)
    (h2 : ∀ c, m.getLast? = some c → c ∉ post) :
    ∃ x y, mid = x ++ (m ++ y) := by
  obtain ⟨mlast, hml⟩ := getLast?_isSome_of_ne_nil hm
  have hmb_mid : ∀ (hq : m ++ b = mid ++ post), ∃ x y, mid = x ++ (m ++ y) := by
    intro hq
    rcases List.append_eq_append_iff.mp hq with ⟨t, hmid, hb⟩ | ⟨t, hmt, hpost⟩
    · exact ⟨[], t, by rw [hmid]; rfl⟩
    · cases ht : t with
      | nil =>
        rw [ht, List.append_nil] at hmt
        exact ⟨[], [], by rw [hmt, List.nil_append, List.append_nil]⟩
      | cons th tt =>
        exfalso
        have hml2 : t.getLast? = some mlast := by
          rw [← @getLast?_append_right _ mid t (by rw [ht]; simp), ← hmt]
          exact hml
        refine h2 mlast hml ?_
        rw [hpost]
        exact List.mem_append_left b (getLast?_mem_list hml2)
  rcases List.append_eq_append_iff.mp he with ⟨k, hk, hmp⟩ | ⟨k, hk, hmp⟩
  · -- a = pre ++ k and mid ++ post = k ++ (m ++ b)
    have hmp2 : mid ++ post = (k ++ m) ++ b := by rw [hmp, List.append_assoc]
    rcases List.append_eq_append_iff.mp hmp2 with ⟨t, hkm, hpost⟩ | ⟨t, hmid, hb⟩
    · cases htc : t with
      | nil =>
        rw [htc, List.append_nil] at hkm
        exact ⟨k, [], by rw [List.append_nil]; exact hkm.symm⟩
      | cons th tt =>
        exfalso
        have hstep : (mid ++ t).getLast? = some mlast := by
          rw [← hkm, getLast?_append_right hm]
          exact hml
        rw [getLast?_append_right (by rw [htc]; simp)] at hstep
        refine h2 mlast hml ?_
        rw [hpost]
        exact List.mem_append_left b (getLast?_mem_list hstep)
    · exact ⟨k, t, by rw [hmid, List.append_assoc]⟩
  · -- pre = a ++ k, m ++ b = k ++ (mid ++ post)
    cases hkc : k with
    | nil =>
      rw [hkc, List.nil_append] at hmp
      exact hmb_mid hmp
    | cons kh kt =>
      exfalso
      have hh : m.head? = some kh := by
        have h0 : (m ++ b).head? = (k ++ (mid ++ post)).head? := by rw [hmp]
        rw [head?_append_left hm, head?_append_left (by rw [hkc]; simp)] at h0
        rw [h0, hkc]
        rfl
      refine h1 kh hh ?_
      rw [hk, hkc]
      exact List.mem_append_right a (List.mem_cons_self kh kt)

/-- A class-declaration match inside a neutralized marker line must lie within
the marker invocation text, which is an infix of the original line: so
rewriting a marker line to `indent ++ "// " ++ invocation ++ "\n"` never
creates a class-declaration match that the original line did not have. -/
lemma classCapture_rewrite {l g1 mac inner : List Char}
    (hfm : findMarker l = some (g1, mac, inner))
    (h : (classCapture (g1 ++ (chars "// " ++ (mac ++ ['\n'])))).isSome = true) :
    (classCapture l).isSome = true := by
  obtain ⟨name, hn⟩ := Option.isSome_iff_exists.mp h
  obtain ⟨a, m, b, he, hex⟩ := classCapture_sound hn
  have he' : (g1 ++ chars "// ") ++ (mac ++ ['\n']) = a ++ (m ++ b) := by
    rw [← he]
    simp [List.append_assoc]
  obtain ⟨pre0, post0, gap, hl, hg1ws, _, hmacsh, _⟩ := findMarker_sound hfm
  have h1 : ∀ c, m.head? = some c → c ∉ (g1 ++ chars "// ") := by
    intro c hc hmem
    rw [ClassExact_head hex] at hc
    obtain rfl := Option.some.inj hc
    rcases List.mem_append.mp hmem with hg | hcom
    · exact absurd (hg1ws _ hg) (by decide)
    · revert hcom
      decide
  have h2 : ∀ c, m.getLast? = some c → c ∉ ['\n'] := by
    intro c hc hmem
    rw [ClassExact_getLast hex] at hc
    obtain rfl := Option.some.inj hc
    revert hmem
    decide
  obtain ⟨x, y, hmid⟩ := middle_infix (ClassExact_ne_nil hex) he' h1 h2
  have hrepos : l = (pre0 ++ g1 ++ x) ++ (m ++ (y ++ post0)) := by
    rw [hl, hmid]
    simp [List.append_assoc]
  rw [hrepos]
  exact classCapture_complete hex _ _

/-- First class declaration found in the 5-line lookahead window
`range(i + 1, min(i + 6, len(lines)))` — the inner `for j ...: break` loop of
L1/L3; returns the window index and the captured class name of the first
matching line. -/
def firstClassInWindow (lines : List (List Char)) (i : Nat) :
    Option (Nat × List Char) :=
  (List.range' (i + 1) (min (i + 6) lines.length - (i + 1))).findSome?
    (fun j => (classCapture (lines.getD j [])).map (fun n => (j, n)))

/-- The same window loop when only the `found_class` flag is kept (L2). -/
def windowAny (lines : List (List Char)) (i : Nat) : Bool :=
  (List.range' (i + 1) (min (i + 6) lines.length - (i + 1))).any
    (fun j => (classCapture (lines.getD j [])).isSome)

/-- Python `line.lstrip().startswith('//')`. -/
def alreadyCommented (l : List Char) : Bool := (chars "//").isPrefixOf (l.dropWhile isWs)

/-- Python `s.rstrip('\n')`. -/
def rstripNl (l : List Char) : List Char := (l.reverse.dropWhile (fun c => c == '\n')).reverse

/-- One `match_info` record of `check_server_impl` (L1 lines 86-93). -/
structure L1Match where
  line_number : Nat
  server_impl_line : List Char
  class_line : List Char
  class_name : List Char
  server_impl_macro : List Char
  server_impl_content : List Char
deriving Repr, DecidableEq

/-- The result dictionary of `check_server_impl` (L1 lines 29-33). -/
structure CheckResult where
  found : Bool
  matches' : List L1Match
  error : Option String
deriving Repr, DecidableEq

/-- The body of L1's scan for one line index `i`: leftmost marker search, then
the 5-line window; the first class declaration in the window yields the
appended `match_info` (and `break`). -/
def scanLine (lines : List (List Char)) (i : Nat) : Option L1Match :=
  match findMarker (lines.getD i []) with
  | none => none
  | some (_, mac, inner) =>
    match firstClassInWindow lines i with
    | none => none
    | some (j, cname) =>
      some ⟨i + 1, pyStrip (lines.getD i []), pyStrip (lines.getD j []), cname, mac,
        extract_bracket_content inner⟩

/-- One iteration of L1's line loop: append the match and set `found` when
`scanLine` produced one. -/
def l1_step (lines : List (List Char)) (r : CheckResult) (i : Nat) : CheckResult :=
  match scanLine lines i with
  | none => r
  | some m => { r with found := true, matches' := r.matches' ++ [m] }

/-- The line loop of `check_server_impl` (L1 lines 69-96) over the content of
an already-read file. -/
def check_server_impl_lines (lines : List (List Char)) : CheckResult :=
  (List.range lines.length).foldl (l1_step lines)
    { found := false, matches' := [], error := none }

/-- A file-system node: a regular file with its lines, or anything that exists
but is not a regular file. -/
inductive FsNode where
  | file (lines : List (List Char))
  | dir
deriving Repr, DecidableEq

/-- The file system: an association list from resolved absolute paths
(component lists) to nodes. -/
abbrev FileSys := List (List String × FsNode)

/-- `exists()` / `is_file()` / read, combined. -/
def lookupFs (fs : FileSys) (p : List String) : Option FsNode :=
  (fs.find? (fun e => e.1 == p)).map (·.2)

/-- Rewriting a file in place. -/
def writeFs (fs : FileSys) (p : List String) (lines : List (List Char)) : FileSys :=
  fs.map (fun e => if e.1 = p then (p, FsNode.file lines) else e)

/-- Display form of an absolute path (used in error messages). -/
def absStr (p : List String) : String := "/" ++ String.intercalate "/" p

/-- Embedding of `check_server_impl` (L1 lines 19-101): existence and
regular-file checks, then the line scan. -/
def check_server_impl (fs : FileSys) (file_path : List String) : CheckResult :=
  match lookupFs fs file_path with
  | none => { found := false, matches' := [],
              error := some ("File does not exist: " ++ absStr file_path) }
  | some FsNode.dir => { found := false, matches' := [],
                         error := some ("Path is not a file: " ++ absStr file_path) }
  | some (FsNode.file lines) => check_server_impl_lines lines

/-- One entry of `lines_to_comment` (L2 lines 75-79). -/
structure L2Entry where
  line_number : Nat
  original : List Char
  commented : List Char
deriving Repr, DecidableEq

/-- The state of L2's rewrite loop: `modified_lines`, `lines_to_comment` and
the `modified` flag. -/
structure L2State where
  newLines : List (List Char)
  commented_lines : List L2Entry
  modified : Bool
deriving Repr, DecidableEq

/-- One iteration of the L2 loop (lines 52-80): leftmost marker search, the
5-line class window (`found_class`), the already-commented test, and the
rewrite `f"{indent}// {macro}\n"`. -/
def l2_step (orig : List (List Char)) (st : L2State) (i : Nat) : L2State :=
  match findMarker (orig.getD i []) with
  | none => st
  | some (g1, mac, _) =>
    if windowAny orig i then
      if alreadyCommented (orig.getD i []) then st
      else
        { newLines := st.newLines.set i (g1 ++ (chars "// " ++ (mac ++ ['\n']))),
          commented_lines := st.commented_lines ++
            [⟨i + 1, rstripNl (orig.getD i []),
              rstripNl (g1 ++ (chars "// " ++ (mac ++ ['\n'])))⟩],
          modified := true }
    else st

/-- The line loop of `comment_server_impl` (L2 lines 48-80) on the content of
an already-read file.  All pattern tests read the original `lines`; rewrites
go to the `modified_lines` copy. -/
def comment_server_impl_lines (lines : List (List Char)) : L2State :=
  (List.range lines.length).foldl (l2_step lines) ⟨lines, [], false⟩

/-- The result dictionary of `comment_server_impl` (L2 lines 24-28). -/
structure CommentResult where
  modified : Bool
  commented_lines : List L2Entry
  error : Option String
deriving Repr, DecidableEq

/-- Embedding of `comment_server_impl` (L2 lines 13-92): path checks, line
loop, and write-back only when something was modified and not a dry run. -/
def comment_server_impl (fs : FileSys) (file_path : List String) (dry_run : Bool) :
    CommentResult × FileSys :=
  match lookupFs fs file_path with
  | none => ({ modified := false, commented_lines := [],
               error := some ("File does not exist: " ++ absStr file_path) }, fs)
  | some FsNode.dir => ({ modified := false, commented_lines := [],
                          error := some ("Path is not a file: " ++ absStr file_path) }, fs)
  | some (FsNode.file lines) =>
    let st := comment_server_impl_lines lines
    ({ modified := st.modified, commented_lines := st.commented_lines, error := none },
     if st.modified && !dry_run then writeFs fs file_path st.newLines else fs)

/-- One `match_info` record of `check_and_comment_server_impl`
(L3 lines 103-108); `file_path` is the resolved absolute path. -/
structure L3Match where
  line_number : Nat
  class_name : List Char
  server_impl_content : List Char
  file_path : List String
deriving Repr, DecidableEq

/-- The loop state of L3: result fields plus `modified_lines`. -/
structure L3State where
  found : Bool
  matches' : List L3Match
  newLines : List (List Char)
  modified : Bool
deriving Repr, DecidableEq

/-- One iteration of the L3 loop (lines 69-110): marker search, class window
with captured name, conditional rewrite, and unconditional `match_info`
append once a class was found. -/
def l3_step (fp : List String) (orig : List (List Char)) (st : L3State) (i : Nat) :
    L3State :=
  match findMarker (orig.getD i []) with
  | none => st
  | some (g1, mac, inner) =>
    match firstClassInWindow orig i with
    | none => st
    | some (_, cname) =>
      let st' :=
        if alreadyCommented (orig.getD i []) then st
        else { st with
                 newLines := st.newLines.set i (g1 ++ (chars "// " ++ (mac ++ ['\n']))),
                 modified := true }
      { st' with found := true,
                 matches' := st'.matches' ++ [⟨i + 1, cname, extract_bracket_content inner, fp⟩] }

/-- The line loop of `check_and_comment_server_impl` (L3 lines 69-110) on the
content of an already-read file whose resolved path is `fp`. -/
def check_and_comment_lines (fp : List String) (lines : List (List Char)) : L3State :=
  (List.range lines.length).foldl (l3_step fp lines) ⟨false, [], lines, false⟩

/-- The result dictionary of `check_and_comment_server_impl`
(L3 lines 41-46). -/
structure L3Result where
  found : Bool
  matches' : List L3Match
  modified : Bool
  error : Option String
deriving Repr, DecidableEq

/-- Embedding of `check_and_comment_server_impl` (L3 lines 31-120): path
checks, combined scan-and-rewrite loop, write-back only when modified. -/
def check_and_comment_server_impl (fs : FileSys) (file_path : List String) :
    L3Result × FileSys :=
  match lookupFs fs file_path with
  | none => ({ found := false, matches' := [], modified := false,
               error := some ("File does not exist: " ++ absStr file_path) }, fs)
  | some FsNode.dir => ({ found := false, matches' := [], modified := false,
                          error := some ("Path is not a file: " ++ absStr file_path) }, fs)
  | some (FsNode.file lines) =>
    let st := check_and_comment_lines file_path lines
    ({ found := st.found, matches' := st.matches', modified := st.modified, error := none },
     if st.modified then writeFs fs file_path st.newLines else fs)

/-- One accumulated registration (L3 main, lines 318-323). -/
structure RegistrationEntry where
  class_name : List Char
  server_impl_content : List Char
  file_path : List String
deriving Repr, DecidableEq

/-- Outcome of the per-file loop of L3 `main` (lines 300-332): final file
system, accumulated registrations, `processed_count`, `commented_count`. -/
structure RunSummary where
  fs : FileSys
  registrations : List RegistrationEntry
  processed : Nat
  commented : Nat
deriving Repr, DecidableEq

/-- The per-file loop of L3 `main` (lines 300-326): each file is processed by
`check_and_comment_server_impl`; a per-file error only skips that file
(`continue`); found files contribute their matches to `all_registrations`. -/
def processFiles (fs : FileSys) : List (List String) → RunSummary
  | [] => ⟨fs, [], 0, 0⟩
  | p :: ps =>
    let rf := check_and_comment_server_impl fs p
    if rf.1.error.isSome then processFiles rf.2 ps
    else
      let rest := processFiles rf.2 ps
      if rf.1.found then
        ⟨rest.fs,
         (rf.1.matches'.map fun m =>
           RegistrationEntry.mk m.class_name m.server_impl_content m.file_path)
           ++ rest.registrations,
         rest.processed + 1,
         rest.commented + (if rf.1.modified then 1 else 0)⟩
      else rest

lemma findSome?_isSome_iff {α β} (f : α → Option β) (L : List α) :
    (L.findSome? f).isSome = true ↔ ∃ j ∈ L, (f j).isSome = true := by
  induction L with
  | nil => simp [List.findSome?_nil]
  | cons a t ih =>
    rw [List.findSome?_cons]
    cases hfa : f a with
    | some v =>
      simp only [Option.isSome_some, true_iff]
      exact ⟨a, List.mem_cons_self a t, by rw [hfa]; rfl⟩
    | none =>
      rw [ih]
      constructor
      · rintro ⟨j, hj, hs⟩
        exact ⟨j, List.mem_cons_of_mem a hj, hs⟩
      · rintro ⟨j, hj, hs⟩
        rcases List.mem_cons.mp hj with rfl | hj
        · rw [hfa] at hs; cases hs
        · exact ⟨j, hj, hs⟩

lemma findSome?_range'_first {β} (f : Nat → Option β) (n : Nat) :
    ∀ (s : Nat) (v : β), (List.range' s n).findSome? f = some v →
      ∃ j, s ≤ j ∧ j < s + n ∧ f j = some v ∧ ∀ k, s ≤ k → k < j → f k = none := by
  induction n with
  | zero => intro s v h; cases h
  | succ n ih =>
    intro s v h
    rw [List.range'_succ, List.findSome?_cons] at h
    cases hfs : f s with
    | some w =>
      rw [hfs] at h
      obtain rfl := Option.some.inj h
      exact ⟨s, Nat.le_refl s, by omega, hfs, fun k hk1 hk2 => absurd (Nat.lt_of_lt_of_le hk2 hk1) (Nat.lt_irrefl k)⟩
    | none =>
      rw [hfs] at h
      obtain ⟨j, hj1, hj2, hj3, hj4⟩ := ih (s + 1) v h
      refine ⟨j, by omega, by omega, hj3, ?_⟩
      intro k hk1 hk2
      rcases Nat.eq_or_lt_of_le hk1 with rfl | hk
      · exact hfs
      · exact hj4 k hk hk2

lemma firstClassInWindow_isSome_iff (lines : List (List Char)) (i : Nat) :
    (firstClassInWindow lines i).isSome = true ↔
      ∃ j, i + 1 ≤ j ∧ j ≤ i + 5 ∧ j < lines.length ∧
        (classCapture (lines.getD j [])).isSome = true := by
  rw [firstClassInWindow, findSome?_isSome_iff]
  constructor
  · rintro ⟨j, hj, hs⟩
    rw [List.mem_range'_1] at hj
    refine ⟨j, by omega, by omega, by omega, ?_⟩
    rwa [show ((classCapture (lines.getD j [])).map fun n => (j, n)) =
      (fun n => (j, n)) <$> classCapture (lines.getD j []) from rfl,
      Option.isSome_map] at hs
  · rintro ⟨j, h1, h2, h3, hs⟩
    refine ⟨j, ?_, ?_⟩
    · rw [List.mem_range'_1]
      omega
    · rwa [show ((classCapture (lines.getD j [])).map fun n => (j, n)) =
        (fun n => (j, n)) <$> classCapture (lines.getD j []) from rfl,
        Option.isSome_map]

lemma firstClassInWindow_first {lines : List (List Char)} {i j : Nat} {n : List Char}
    (h : firstClassInWindow lines i = some (j, n)) :
    i + 1 ≤ j ∧ j ≤ i + 5 ∧ j < lines.length ∧
      classCapture (lines.getD j []) = some n ∧
      ∀ k, i + 1 ≤ k → k < j → classCapture (lines.getD k []) = none := by
  rw [firstClassInWindow] at h
  obtain ⟨j0, hj1, hj2, hj3, hj4⟩ := findSome?_range'_first _ _ _ _ h
  obtain ⟨n0, hn1, hn2⟩ := Option.map_eq_some'.mp hj3
  obtain ⟨rfl, rfl⟩ : j0 = j ∧ n0 = n := by
    exact ⟨congrArg Prod.fst hn2, congrArg Prod.snd hn2⟩
  refine ⟨by omega, by omega, by omega, hn1, ?_⟩
  intro k hk1 hk2
  have hkmem := hj4 k hk1 (by omega)
  cases hck : classCapture (lines.getD k []) with
  | none => rfl
  | some m =>
    rw [hck] at hkmem
    cases hkmem

lemma windowAny_eq_isSome (lines : List (List Char)) (i : Nat) :
    windowAny lines i = (firstClassInWindow lines i).isSome := by
  cases hw : windowAny lines i with
  | false =>
    cases hf : (firstClassInWindow lines i).isSome with
    | false => rfl
    | true =>
      exfalso
      obtain ⟨j, h1, h2, h3, hs⟩ := (firstClassInWindow_isSome_iff lines i).mp hf
      rw [windowAny] at hw
      have := List.any_eq_false.mp hw j (by rw [List.mem_range'_1]; omega)
      exact this hs
  | true =>
    cases hf : (firstClassInWindow lines i).isSome with
    | true => rfl
    | false =>
      exfalso
      rw [windowAny] at hw
      obtain ⟨j, hj, hs⟩ := List.any_eq_true.mp hw
      rw [List.mem_range'_1] at hj
      have := (firstClassInWindow_isSome_iff lines i).mpr ⟨j, by omega, by omega, by omega, hs⟩
      rw [hf] at this
      cases this

lemma l1_fold_char (lines : List (List Char)) (L : List Nat) :
    ∀ (r : CheckResult),
      (L.foldl (l1_step lines) r).matches' = r.matches' ++ L.filterMap (scanLine lines) ∧
      (L.foldl (l1_step lines) r).found
        = (r.found || L.any fun i => (scanLine lines i).isSome) ∧
      (L.foldl (l1_step lines) r).error = r.error := by
  induction L with
  | nil => intro r; simp
  | cons a t ih =>
    intro r
    cases hs : scanLine lines a with
    | none =>
      have hst : l1_step lines r a = r := by rw [l1_step, hs]
      obtain ⟨ih1, ih2, ih3⟩ := ih (l1_step lines r a)
      rw [hst] at ih1 ih2 ih3
      refine ⟨?_, ?_, ?_⟩
      · rw [List.foldl_cons, hst, ih1, List.filterMap_cons, hs]
      · rw [List.foldl_cons, hst, ih2, List.any_cons, hs]
        simp
      · rw [List.foldl_cons, hst, ih3]
    | some m =>
      have hst : l1_step lines r a = { r with found := true, matches' := r.matches' ++ [m] } := by
        rw [l1_step, hs]
      obtain ⟨ih1, ih2, ih3⟩ := ih (l1_step lines r a)
      rw [hst] at ih1 ih2 ih3
      refine ⟨?_, ?_, ?_⟩
      · rw [List.foldl_cons, hst, ih1, List.filterMap_cons, hs]
        simp [List.append_assoc]
      · rw [List.foldl_cons, hst, ih2, List.any_cons, hs]
        simp
      · rw [List.foldl_cons, hst, ih3]

lemma check_server_impl_lines_spec (lines : List (List Char)) :
    (check_server_impl_lines lines).matches'
        = (List.range lines.length).filterMap (scanLine lines) ∧
      (check_server_impl_lines lines).found
        = (List.range lines.length).any (fun i => (scanLine lines i).isSome) ∧
      (check_server_impl_lines lines).error = none := by
  obtain ⟨h1, h2, h3⟩ :=
    l1_fold_char lines (List.range lines.length) ⟨false, [], none⟩
  rw [check_server_impl_lines]
  exact ⟨by rw [h1]; rfl, by rw [h2]; rfl, h3⟩

lemma scanLine_line_number {lines : List (List Char)} {i : Nat} {m : L1Match}
    (h : scanLine lines i = some m) : m.line_number = i + 1 := by
  rw [scanLine] at h
  split at h
  · cases h
  · split at h
    · cases h
    · obtain rfl := Option.some.inj h
      rfl

/-- C2: for every file and line index `i` whose line matches the marker
pattern, a match for line `i` is produced exactly when some line `j` with
`i+1 ≤ j ≤ i+5` (clipped to the end of the file) matches the class pattern;
the produced match takes its class name from the first such `j` (scanning
stops there), its macro text and argument from line `i`; nothing is produced
for markers whose nearest class declaration lies beyond the window. -/
theorem check_server_impl_window (lines : List (List Char)) (i : Nat)
    (g1 mac inner : List Char) (hi : i < lines.length)
    (hm : findMarker (lines.getD i []) = some (g1, mac, inner)) :
    ((∃ m ∈ (check_server_impl_lines lines).matches', m.line_number = i + 1) ↔
      ∃ j, i + 1 ≤ j ∧ j ≤ i + 5 ∧ j < lines.length ∧
        (classCapture (lines.getD j [])).isSome = true) ∧
    ∀ m ∈ (check_server_impl_lines lines).matches', m.line_number = i + 1 →
      m.server_impl_content = extract_bracket_content inner ∧
      m.server_impl_macro = mac ∧
      ∃ j, i + 1 ≤ j ∧ j ≤ i + 5 ∧ j < lines.length ∧
        classCapture (lines.getD j []) = some m.class_name ∧
        ∀ k, i + 1 ≤ k → k < j → classCapture (lines.getD k []) = none := by
  obtain ⟨hM, hF, hE⟩ := check_server_impl_lines_spec lines
  have hmem_scan : ∀ m, m ∈ (check_server_impl_lines lines).matches' →
      m.line_number = i + 1 → scanLine lines i = some m := by
    intro m hmem hln
    rw [hM] at hmem
    obtain ⟨k, hk, hsk⟩ := List.mem_filterMap.mp hmem
    have := scanLine_line_number hsk
    have hki : k = i := by omega
    rwa [hki] at hsk
  constructor
  · constructor
    · rintro ⟨m, hmem, hln⟩
      have hsc := hmem_scan m hmem hln
      rw [scanLine, hm] at hsc
      cases hf : firstClassInWindow lines i with
      | none => rw [hf] at hsc; cases hsc
      | some p =>
        obtain ⟨j, n⟩ := p
        obtain ⟨h1, h2, h3, h4, _⟩ := firstClassInWindow_first hf
        exact ⟨j, h1, h2, h3, by rw [h4]; rfl⟩
    · rintro ⟨j, h1, h2, h3, hs⟩
      have hf : (firstClassInWindow lines i).isSome = true :=
        (firstClassInWindow_isSome_iff lines i).mpr ⟨j, h1, h2, h3, hs⟩
      obtain ⟨p, hp⟩ := Option.isSome_iff_exists.mp hf
      obtain ⟨j0, n0⟩ := p
      have hsc : scanLine lines i = some ⟨i + 1, pyStrip (lines.getD i []),
          pyStrip (lines.getD j0 []), n0, mac, extract_bracket_content inner⟩ := by
        rw [scanLine, hm, hp]
      refine ⟨⟨i + 1, pyStrip (lines.getD i []), pyStrip (lines.getD j0 []), n0, mac,
        extract_bracket_content inner⟩, ?_, rfl⟩
      rw [hM]
      exact List.mem_filterMap.mpr ⟨i, List.mem_range.mpr hi, hsc⟩
  · intro m hmem hln
    have hsc := hmem_scan m hmem hln
    rw [scanLine, hm] at hsc
    cases hf : firstClassInWindow lines i with
    | none => rw [hf] at hsc; cases hsc
    | some p =>
      obtain ⟨j, n⟩ := p
      rw [hf] at hsc
      obtain rfl := Option.some.inj hsc
      obtain ⟨h1, h2, h3, h4, h5⟩ := firstClassInWindow_first hf
      exact ⟨rfl, rfl, j, h1, h2, h3, h4, h5⟩

/-- The two-line end-to-end example file of the spec. -/
def c2File : List (List Char) :=
  [chars "ServerImpl(\"echo\")\n", chars "class EchoServer final : public IServer\n"]

/-- Witness for C2 at the end-to-end example: the marker on line 0 with the
class declaration on line 1. -/
theorem check_server_impl_window_witness :
    ((∃ m ∈ (check_server_impl_lines c2File).matches', m.line_number = 0 + 1) ↔
      ∃ j, 0 + 1 ≤ j ∧ j ≤ 0 + 5 ∧ j < c2File.length ∧
        (classCapture (c2File.getD j [])).isSome = true) ∧
    ∀ m ∈ (check_server_impl_lines c2File).matches', m.line_number = 0 + 1 →
      m.server_impl_content = extract_bracket_content (chars "\"echo\"") ∧
      m.server_impl_macro = chars "ServerImpl(\"echo\")" ∧
      ∃ j, 0 + 1 ≤ j ∧ j ≤ 0 + 5 ∧ j < c2File.length ∧
        classCapture (c2File.getD j []) = some m.class_name ∧
        ∀ k, 0 + 1 ≤ k → k < j → classCapture (c2File.getD k []) = none :=
  check_server_impl_window c2File 0 [] (chars "ServerImpl(\"echo\")") (chars "\"echo\"")
    (by decide) (by decide)

/-- The combined rewrite condition of the neutralizer loop for line `i`:
marker found, class declaration inside the window, not already commented. -/
def shouldRewrite (lines : List (List Char)) (i : Nat) : Bool :=
  (findMarker (lines.getD i [])).isSome
    && (windowAny lines i && !alreadyCommented (lines.getD i []))

/-- The neutralized form of a marker line: `f"{indent}// {macro}\n"`. -/
def rewrittenLine (l : List Char) : List Char :=
  match findMarker l with
  | some (g1, mac, _) => g1 ++ (chars "// " ++ (mac ++ ['\n']))
  | none => l

/-- The `lines_to_comment` entry recorded for a rewritten line `i`. -/
def l2Entry (lines : List (List Char)) (i : Nat) : L2Entry :=
  ⟨i + 1, rstripNl (lines.getD i []), rstripNl (rewrittenLine (lines.getD i []))⟩

lemma l2_step_eq (lines : List (List Char)) (st : L2State) (i : Nat) :
    l2_step lines st i =
      if shouldRewrite lines i then
        { newLines := st.newLines.set i (rewrittenLine (lines.getD i [])),
          commented_lines := st.commented_lines ++ [l2Entry lines i],
          modified := true }
      else st := by
  cases h : findMarker (lines.getD i []) with
  | none =>
    have hf : shouldRewrite lines i = false := by rw [shouldRewrite, h]; rfl
    simp only [l2_step, h]
    rw [if_neg (by simp [hf])]
  | some t =>
    obtain ⟨g1, mac, inner⟩ := t
    have hrw : rewrittenLine (lines.getD i []) = g1 ++ (chars "// " ++ (mac ++ ['\n'])) := by
      rw [rewrittenLine, h]
    simp only [l2_step, h]
    by_cases hw : windowAny lines i = true
    · by_cases hc : alreadyCommented (lines.getD i []) = true
      · have hf : shouldRewrite lines i = false := by
          rw [shouldRewrite, h, hw, hc]
          rfl
        rw [if_pos hw, if_pos hc, if_neg (by simp [hf])]
      · have hcf : alreadyCommented (lines.getD i []) = false := Bool.eq_false_iff.mpr hc
        have hf : shouldRewrite lines i = true := by
          rw [shouldRewrite, h, hw, hcf]
          rfl
        rw [if_pos hw, if_neg hc, if_pos (by simp [hf]), l2Entry, hrw]
    · have hwf : windowAny lines i = false := Bool.eq_false_iff.mpr hw
      have hf : shouldRewrite lines i = false := by
        rw [shouldRewrite, h, hwf]
        rfl
      rw [if_neg hw, if_neg (by simp [hf])]

lemma getElem?_set_self' {α} (L : List α) (k : Nat) (v : α) :
    (L.set k v)[k]? = if k < L.length then some v else none := by
  by_cases h : k < L.length
  · rw [if_pos h, List.getElem?_set_self h]
  · rw [if_neg h, List.getElem?_eq_none]
    rw [List.length_set]
    omega

lemma l2_fold_char (lines : List (List Char)) (b : Nat) :
    ∀ (a : Nat) (st : L2State),
      (((List.range' a b).foldl (l2_step lines) st).newLines.length
          = st.newLines.length) ∧
      (∀ k, (k < a ∨ a + b ≤ k) →
        ((List.range' a b).foldl (l2_step lines) st).newLines[k]? = st.newLines[k]?) ∧
      (∀ k, a ≤ k → k < a + b →
        ((List.range' a b).foldl (l2_step lines) st).newLines[k]?
          = if shouldRewrite lines k then
              (st.newLines.set k (rewrittenLine (lines.getD k [])))[k]?
            else st.newLines[k]?) ∧
      (((List.range' a b).foldl (l2_step lines) st).modified
          = (st.modified || (List.range' a b).any (shouldRewrite lines))) ∧
      (((List.range' a b).foldl (l2_step lines) st).commented_lines
          = st.commented_lines ++ (List.range' a b).filterMap
              (fun i => if shouldRewrite lines i then some (l2Entry lines i) else none)) := by
  induction b with
  | zero =>
    intro a st
    refine ⟨rfl, fun k _ => rfl, ?_, by simp, by simp⟩
    intro k h1 h2
    omega
  | succ b ih =>
    intro a st
    rw [show List.range' a (b + 1) = a :: List.range' (a + 1) b from List.range'_succ a b 1]
    rw [List.foldl_cons, List.any_cons, List.filterMap_cons]
    have hstep := l2_step_eq lines st a
    by_cases hsr : shouldRewrite lines a = true
    · rw [if_pos hsr] at hstep
      rw [hstep]
      obtain ⟨ih1, ih2, ih3, ih4, ih5⟩ := ih (a + 1)
        { newLines := st.newLines.set a (rewrittenLine (lines.getD a [])),
          commented_lines := st.commented_lines ++ [l2Entry lines a],
          modified := true }
      refine ⟨?_, ?_, ?_, ?_, ?_⟩
      · rw [ih1]
        simp [List.length_set]
      · intro k hk
        rw [ih2 k (by omega)]
        exact List.getElem?_set_ne (by omega)
      · intro k hk1 hk2
        rcases Nat.eq_or_lt_of_le hk1 with rfl | hk
        · rw [ih2 a (by omega), if_pos hsr]
        · rw [ih3 k (by omega) (by omega)]
          by_cases hsrk : shouldRewrite lines k = true
          · rw [if_pos hsrk, if_pos hsrk]
            show ((st.newLines.set a (rewrittenLine (lines.getD a []))).set k
              (rewrittenLine (lines.getD k [])))[k]?
                = (st.newLines.set k (rewrittenLine (lines.getD k [])))[k]?
            rw [getElem?_set_self', getElem?_set_self', List.length_set]
          · rw [if_neg hsrk, if_neg hsrk]
            exact List.getElem?_set_ne (by omega)
      · rw [ih4, hsr]
        simp
      · rw [ih5, if_pos hsr]
        simp [List.append_assoc]
    · rw [if_neg hsr] at hstep
      rw [hstep]
      obtain ⟨ih1, ih2, ih3, ih4, ih5⟩ := ih (a + 1) st
      have hf : shouldRewrite lines a = false := Bool.eq_false_iff.mpr hsr
      refine ⟨ih1, ?_, ?_, ?_, ?_⟩
      · intro k hk
        exact ih2 k (by omega)
      · intro k hk1 hk2
        rcases Nat.eq_or_lt_of_le hk1 with rfl | hk
        · rw [ih2 a (by omega), if_neg hsr]
        · exact ih3 k (by omega) (by omega)
      · rw [ih4, hf]
        simp
      · rw [ih5, if_neg hsr]

lemma comment_lines_char (lines : List (List Char)) :
    (comment_server_impl_lines lines).newLines.length = lines.length ∧
    (∀ k, (comment_server_impl_lines lines).newLines[k]?
        = if k < lines.length ∧ shouldRewrite lines k = true
          then some (rewrittenLine (lines.getD k [])) else lines[k]?) ∧
    (comment_server_impl_lines lines).modified
        = (List.range lines.length).any (shouldRewrite lines) ∧
    (comment_server_impl_lines lines).commented_lines
        = (List.range lines.length).filterMap
            (fun i => if shouldRewrite lines i then some (l2Entry lines i) else none) := by
  obtain ⟨h1, h2, h3, h4, h5⟩ := l2_fold_char lines lines.length 0 ⟨lines, [], false⟩
  rw [comment_server_impl_lines, List.range_eq_range']
  refine ⟨h1, ?_, by rw [h4]; simp, by rw [h5]; rfl⟩
  intro k
  by_cases hk : k < lines.length
  · rw [h3 k (by omega) (by omega)]
    by_cases hsr : shouldRewrite lines k = true
    · rw [if_pos hsr, if_pos ⟨hk, hsr⟩, getElem?_set_self', if_pos hk]
    · rw [if_neg hsr, if_neg (by tauto)]
  · rw [h2 k (by omega), if_neg (by tauto)]

lemma rewrittenLine_commented {l g1 mac inner : List Char}
    (h : findMarker l = some (g1, mac, inner)) :
    alreadyCommented (rewrittenLine l) = true := by
  obtain ⟨pre, post, gap, hl, hg1ws, hpre, hmac, hgap⟩ := findMarker_sound h
  rw [rewrittenLine, h, alreadyCommented, dropWhile_append_all hg1ws]
  rw [show chars "// " ++ (mac ++ ['\n']) = '/' :: ('/' :: (' ' :: (mac ++ ['\n'])))
    from rfl]
  rw [List.dropWhile_cons, if_neg (by decide)]
  exact List.isPrefixOf_iff_prefix.mpr ⟨' ' :: (mac ++ ['\n']), rfl⟩

lemma shouldRewrite_of_commented {lines : List (List Char)} {k : Nat}
    (h : alreadyCommented (lines.getD k []) = true) :
    shouldRewrite lines k = false := by
  rw [shouldRewrite, h]
  simp

lemma windowAny_false_preserved (lines : List (List Char)) (k : Nat)
    (hwf : windowAny lines k = false) :
    windowAny (comment_server_impl_lines lines).newLines k = false := by
  obtain ⟨hlen, hget, _, _⟩ := comment_lines_char lines
  rw [windowAny, hlen, List.any_eq_false]
  intro j hj
  rw [List.mem_range'_1] at hj
  intro hsome
  have hjlen : j < lines.length := by omega
  have hgd : (comment_server_impl_lines lines).newLines.getD j []
      = if j < lines.length ∧ shouldRewrite lines j = true
        then rewrittenLine (lines.getD j []) else lines.getD j [] := by
    rw [List.getD_eq_getElem?_getD, hget j]
    by_cases hc : j < lines.length ∧ shouldRewrite lines j = true
    · rw [if_pos hc, if_pos hc]
      rfl
    · rw [if_neg hc, if_neg hc, ← List.getD_eq_getElem?_getD]
  have horig := List.any_eq_false.mp (by rw [windowAny] at hwf; exact hwf) j
    (by rw [List.mem_range'_1]; omega)
  rw [hgd] at hsome
  by_cases hj2 : j < lines.length ∧ shouldRewrite lines j = true
  · rw [if_pos hj2] at hsome
    have hmj : (findMarker (lines.getD j [])).isSome = true := by
      have h0 := hj2.2
      rw [shouldRewrite] at h0
      exact (Bool.and_eq_true_iff.mp h0).1
    obtain ⟨t, ht⟩ := Option.isSome_iff_exists.mp hmj
    obtain ⟨g1, mac, inner⟩ := t
    rw [rewrittenLine, ht] at hsome
    exact horig (classCapture_rewrite ht hsome)
  · rw [if_neg hj2] at hsome
    exact horig hsome

lemma second_pass_no_rewrite (lines : List (List Char)) (k : Nat) :
    shouldRewrite (comment_server_impl_lines lines).newLines k = false := by
  obtain ⟨hlen, hget, _, _⟩ := comment_lines_char lines
  have hgd : (comment_server_impl_lines lines).newLines.getD k []
      = if k < lines.length ∧ shouldRewrite lines k = true
        then rewrittenLine (lines.getD k []) else lines.getD k [] := by
    rw [List.getD_eq_getElem?_getD, hget k]
    by_cases hc : k < lines.length ∧ shouldRewrite lines k = true
    · rw [if_pos hc, if_pos hc]
      rfl
    · rw [if_neg hc, if_neg hc, ← List.getD_eq_getElem?_getD]
  by_cases hk : k < lines.length ∧ shouldRewrite lines k = true
  · have hmk : (findMarker (lines.getD k [])).isSome = true := by
      have h0 := hk.2
      rw [shouldRewrite] at h0
      exact (Bool.and_eq_true_iff.mp h0).1
    obtain ⟨t, ht⟩ := Option.isSome_iff_exists.mp hmk
    obtain ⟨g1, mac, inner⟩ := t
    refine shouldRewrite_of_commented ?_
    rw [hgd, if_pos hk]
    exact rewrittenLine_commented ht
  · by_cases hklen : k < lines.length
    · have hsrf : shouldRewrite lines k = false := by
        by_cases h : shouldRewrite lines k = true
        · exact absurd ⟨hklen, h⟩ hk
        · exact Bool.eq_false_iff.mpr h
      rw [shouldRewrite, hgd, if_neg hk]
      rw [shouldRewrite] at hsrf
      cases hm : findMarker (lines.getD k []) with
      | none => rfl
      | some t =>
        obtain ⟨g1, mac, inner⟩ := t
        rw [hm] at hsrf
        simp only [Option.isSome_some, Bool.true_and] at hsrf ⊢
        rcases Bool.and_eq_false_iff.mp hsrf with hwf | hcf
        · rw [windowAny_false_preserved lines k hwf]
          rfl
        · rw [hcf, Bool.and_false]
    · rw [shouldRewrite, hgd, if_neg hk]
      have hout : lines.getD k [] = [] := by
        rw [List.getD_eq_getElem?_getD, List.getElem?_eq_none (by omega)]
        rfl
      rw [hout]
      rfl

/-- The per-line scan outcome of the L3 loop: marker plus windowed class give
one `match_info`. -/
def scanL3 (fp : List String) (lines : List (List Char)) (i : Nat) : Option L3Match :=
  match findMarker (lines.getD i []) with
  | none => none
  | some (_, _, inner) =>
    match firstClassInWindow lines i with
    | none => none
    | some (_, cname) => some ⟨i + 1, cname, extract_bracket_content inner, fp⟩

lemma shouldRewrite_false_of_scanL3_none {fp : List String} {lines : List (List Char)}
    {i : Nat} (h : scanL3 fp lines i = none) : shouldRewrite lines i = false := by
  rw [scanL3] at h
  rw [shouldRewrite, windowAny_eq_isSome]
  cases hm : findMarker (lines.getD i []) with
  | none => rfl
  | some t =>
    obtain ⟨g1, mac, inner⟩ := t
    rw [hm] at h
    cases hf : firstClassInWindow lines i with
    | none => rfl
    | some p =>
      rw [hf] at h
      obtain ⟨j, cname⟩ := p
      simp at h

lemma l3_step_newLines (fp : List String) (lines : List (List Char)) (st : L3State)
    (i : Nat) :
    (l3_step fp lines st i).newLines =
      if shouldRewrite lines i then st.newLines.set i (rewrittenLine (lines.getD i []))
      else st.newLines := by
  cases hm : findMarker (lines.getD i []) with
  | none =>
    have hsf : shouldRewrite lines i = false := by rw [shouldRewrite, hm]; rfl
    simp only [l3_step, hm]
    rw [if_neg (by simp [hsf])]
  | some t =>
    obtain ⟨g1, mac, inner⟩ := t
    have hrw : rewrittenLine (lines.getD i []) = g1 ++ (chars "// " ++ (mac ++ ['\n'])) := by
      rw [rewrittenLine, hm]
    cases hf : firstClassInWindow lines i with
    | none =>
      have hsf : shouldRewrite lines i = false := by
        rw [shouldRewrite, windowAny_eq_isSome, hm, hf]
        rfl
      simp only [l3_step, hm, hf]
      rw [if_neg (by simp [hsf])]
    | some p =>
      obtain ⟨j, cname⟩ := p
      have hwa : windowAny lines i = true := by
        rw [windowAny_eq_isSome, hf]
        rfl
      by_cases hc : alreadyCommented (lines.getD i []) = true
      · have hsf : shouldRewrite lines i = false := by
          rw [shouldRewrite, hm, hwa, hc]
          rfl
        simp only [l3_step, hm, hf]
        rw [if_pos hc, if_neg (by simp [hsf])]
      · have hcf : alreadyCommented (lines.getD i []) = false := Bool.eq_false_iff.mpr hc
        have hst : shouldRewrite lines i = true := by
          rw [shouldRewrite, hm, hwa, hcf]
          rfl
        simp only [l3_step, hm, hf]
        rw [if_neg hc, if_pos (by simp [hst]), hrw]

lemma l3_step_modified (fp : List String) (lines : List (List Char)) (st : L3State)
    (i : Nat) :
    (l3_step fp lines st i).modified = (st.modified || shouldRewrite lines i) := by
  cases hm : findMarker (lines.getD i []) with
  | none =>
    have hsf : shouldRewrite lines i = false := by rw [shouldRewrite, hm]; rfl
    simp only [l3_step, hm]
    rw [hsf]
    simp
  | some t =>
    obtain ⟨g1, mac, inner⟩ := t
    cases hf : firstClassInWindow lines i with
    | none =>
      have hsf : shouldRewrite lines i = false := by
        rw [shouldRewrite, windowAny_eq_isSome, hm, hf]
        rfl
      simp only [l3_step, hm, hf]
      rw [hsf]
      simp
    | some p =>
      obtain ⟨j, cname⟩ := p
      have hwa : windowAny lines i = true := by
        rw [windowAny_eq_isSome, hf]
        rfl
      by_cases hc : alreadyCommented (lines.getD i []) = true
      · have hsf : shouldRewrite lines i = false := by
          rw [shouldRewrite, hm, hwa, hc]
          rfl
        simp only [l3_step, hm, hf]
        rw [if_pos hc, hsf]
        simp
      · have hcf : alreadyCommented (lines.getD i []) = false := Bool.eq_false_iff.mpr hc
        have hst : shouldRewrite lines i = true := by
          rw [shouldRewrite, hm, hwa, hcf]
          rfl
        simp only [l3_step, hm, hf]
        rw [if_neg hc, hst]
        simp

lemma l3_step_found (fp : List String) (lines : List (List Char)) (st : L3State)
    (i : Nat) :
    (l3_step fp lines st i).found = (st.found || (scanL3 fp lines i).isSome) := by
  cases hm : findMarker (lines.getD i []) with
  | none =>
    have hscan : scanL3 fp lines i = none := by rw [scanL3, hm]
    simp only [l3_step, hm, hscan]
    simp
  | some t =>
    obtain ⟨g1, mac, inner⟩ := t
    cases hf : firstClassInWindow lines i with
    | none =>
      have hscan : scanL3 fp lines i = none := by rw [scanL3, hm, hf]
      simp only [l3_step, hm, hf, hscan]
      simp
    | some p =>
      obtain ⟨j, cname⟩ := p
      have hscan : scanL3 fp lines i
          = some ⟨i + 1, cname, extract_bracket_content inner, fp⟩ := by
        rw [scanL3, hm, hf]
      simp only [l3_step, hm, hf, hscan]
      simp

lemma l3_step_matches (fp : List String) (lines : List (List Char)) (st : L3State)
    (i : Nat) :
    (l3_step fp lines st i).matches' = st.matches' ++ (scanL3 fp lines i).toList := by
  cases hm : findMarker (lines.getD i []) with
  | none =>
    have hscan : scanL3 fp lines i = none := by rw [scanL3, hm]
    simp only [l3_step, hm, hscan]
    simp
  | some t =>
    obtain ⟨g1, mac, inner⟩ := t
    cases hf : firstClassInWindow lines i with
    | none =>
      have hscan : scanL3 fp lines i = none := by rw [scanL3, hm, hf]
      simp only [l3_step, hm, hf, hscan]
      simp
    | some p =>
      obtain ⟨j, cname⟩ := p
      have hscan : scanL3 fp lines i
          = some ⟨i + 1, cname, extract_bracket_content inner, fp⟩ := by
        rw [scanL3, hm, hf]
      simp only [l3_step, hm, hf, hscan]
      by_cases hc : alreadyCommented (lines.getD i []) = true
      · rw [if_pos hc]
        rfl
      · rw [if_neg hc]
        rfl

lemma l3_l2_fold_agree (fp : List String) (lines : List (List Char)) (L : List Nat) :
    ∀ (st3 : L3State) (st2 : L2State), st3.newLines = st2.newLines →
      st3.modified = st2.modified →
      ((L.foldl (l3_step fp lines) st3).newLines
          = (L.foldl (l2_step lines) st2).newLines) ∧
      ((L.foldl (l3_step fp lines) st3).modified
          = (L.foldl (l2_step lines) st2).modified) := by
  induction L with
  | nil => intro st3 st2 h1 h2; exact ⟨h1, h2⟩
  | cons a t ih =>
    intro st3 st2 h1 h2
    rw [List.foldl_cons, List.foldl_cons]
    refine ih _ _ ?_ ?_
    · rw [l3_step_newLines, h1, l2_step_eq]
      by_cases hsr : shouldRewrite lines a = true
      · rw [if_pos hsr, if_pos hsr]
      · rw [if_neg hsr, if_neg hsr]
    · rw [l3_step_modified, h2, l2_step_eq]
      by_cases hsr : shouldRewrite lines a = true
      · rw [if_pos hsr, hsr]
        simp
      · rw [if_neg hsr]
        have hf : shouldRewrite lines a = false := Bool.eq_false_iff.mpr hsr
        rw [hf]
        simp

lemma check_and_comment_lines_agree (fp : List String) (lines : List (List Char)) :
    (check_and_comment_lines fp lines).newLines
        = (comment_server_impl_lines lines).newLines ∧
      (check_and_comment_lines fp lines).modified
        = (comment_server_impl_lines lines).modified := by
  rw [check_and_comment_lines, comment_server_impl_lines]
  exact l3_l2_fold_agree fp lines (List.range lines.length)
    ⟨false, [], lines, false⟩ ⟨lines, [], false⟩ rfl rfl

lemma l3_fold_found_matches (fp : List String) (lines : List (List Char)) (L : List Nat) :
    ∀ (st : L3State),
      ((L.foldl (l3_step fp lines) st).matches'
          = st.matches' ++ L.filterMap (scanL3 fp lines)) ∧
      ((L.foldl (l3_step fp lines) st).found
          = (st.found || L.any fun i => (scanL3 fp lines i).isSome)) := by
  induction L with
  | nil => intro st; simp
  | cons a t ih =>
    intro st
    rw [List.foldl_cons, List.filterMap_cons, List.any_cons]
    obtain ⟨ih1, ih2⟩ := ih (l3_step fp lines st a)
    refine ⟨?_, ?_⟩
    · rw [ih1, l3_step_matches]
      cases hs : scanL3 fp lines a with
      | none => simp
      | some m => simp [List.append_assoc]
    · rw [ih2, l3_step_found]
      cases hs : scanL3 fp lines a with
      | none => simp
      | some m => simp

lemma l2_idempotent (lines : List (List Char)) :
    (comment_server_impl_lines (comment_server_impl_lines lines).newLines).newLines
        = (comment_server_impl_lines lines).newLines ∧
      (comment_server_impl_lines (comment_server_impl_lines lines).newLines).modified
        = false ∧
      (comment_server_impl_lines (comment_server_impl_lines lines).newLines).commented_lines
        = [] := by
  obtain ⟨hlen2, hget2, hmod2, hcom2⟩ :=
    comment_lines_char (comment_server_impl_lines lines).newLines
  refine ⟨?_, ?_, ?_⟩
  · apply List.ext_getElem?
    intro n
    rw [hget2 n, if_neg]
    rintro ⟨_, h⟩
    rw [second_pass_no_rewrite lines n] at h
    cases h
  · rw [hmod2, List.any_eq_false]
    intro x _ h
    rw [second_pass_no_rewrite lines x] at h
    cases h
  · rw [hcom2, List.filterMap_eq_nil_iff]
    intro i _
    rw [if_neg]
    intro h
    rw [second_pass_no_rewrite lines i] at h
    cases h

/-- C3: running the marker neutralizer a second time immediately after a
first run is a no-op: the lines are unchanged, the `modified` flag is false
and no newly-commented line is recorded (a marker line that, after stripping
leading whitespace, already begins with `//` is skipped and not counted).
This holds for the L2 loop, for the combined L3 loop, and on the file system
the second run performs no write. -/
theorem comment_server_impl_idempotent :
    (∀ lines : List (List Char),
      (comment_server_impl_lines (comment_server_impl_lines lines).newLines).newLines
          = (comment_server_impl_lines lines).newLines ∧
        (comment_server_impl_lines (comment_server_impl_lines lines).newLines).modified
          = false ∧
        (comment_server_impl_lines (comment_server_impl_lines lines).newLines).commented_lines
          = []) ∧
    (∀ (fp : List String) (lines : List (List Char)),
      (check_and_comment_lines fp (check_and_comment_lines fp lines).newLines).newLines
          = (check_and_comment_lines fp lines).newLines ∧
        (check_and_comment_lines fp (check_and_comment_lines fp lines).newLines).modified
          = false) ∧
    (∀ (fs : FileSys) (p : List String) (lines : List (List Char)) (dry : Bool),
      lookupFs fs p = some (FsNode.file ((comment_server_impl_lines lines).newLines)) →
      (comment_server_impl fs p dry).2 = fs ∧
        (comment_server_impl fs p dry).1.modified = false) := by
  refine ⟨l2_idempotent, ?_, ?_⟩
  · intro fp lines
    obtain ⟨ha1, ha2⟩ := check_and_comment_lines_agree fp lines
    obtain ⟨hb1, hb2⟩ :=
      check_and_comment_lines_agree fp (check_and_comment_lines fp lines).newLines
    obtain ⟨h1, h2, _⟩ := l2_idempotent lines
    constructor
    · rw [hb1, ha1, h1, ← ha1]
    · rw [hb2, ha1, h2]
  · intro fs p lines dry h
    obtain ⟨h1, h2, h3⟩ := l2_idempotent lines
    simp only [comment_server_impl, h]
    constructor
    · rw [h2]
      rfl
    · exact h2

/-- Witness for C3's file-system clause at a concrete one-file system. -/
theorem comment_server_impl_idempotent_witness :
    (comment_server_impl
        [(["lib", "f.h"], FsNode.file ((comment_server_impl_lines c2File).newLines))]
        ["lib", "f.h"] false).2
      = [(["lib", "f.h"], FsNode.file ((comment_server_impl_lines c2File).newLines))] ∧
    (comment_server_impl
        [(["lib", "f.h"], FsNode.file ((comment_server_impl_lines c2File).newLines))]
        ["lib", "f.h"] false).1.modified = false :=
  comment_server_impl_idempotent.2.2
    [(["lib", "f.h"], FsNode.file ((comment_server_impl_lines c2File).newLines))]
    ["lib", "f.h"] c2File false (by decide)

lemma comment_newLines_getD (lines : List (List Char)) (k : Nat) :
    (comment_server_impl_lines lines).newLines.getD k []
      = if k < lines.length ∧ shouldRewrite lines k = true
        then rewrittenLine (lines.getD k []) else lines.getD k [] := by
  obtain ⟨_, hget, _, _⟩ := comment_lines_char lines
  rw [List.getD_eq_getElem?_getD, hget k]
  by_cases hc : k < lines.length ∧ shouldRewrite lines k = true
  · rw [if_pos hc, if_pos hc]
    rfl
  · rw [if_neg hc, if_neg hc, ← List.getD_eq_getElem?_getD]

lemma rewrittenLine_ne_of_shouldRewrite {lines : List (List Char)} {k : Nat}
    (h : shouldRewrite lines k = true) :
    rewrittenLine (lines.getD k []) ≠ lines.getD k [] := by
  rw [shouldRewrite] at h
  obtain ⟨hm, hrest⟩ := Bool.and_eq_true_iff.mp h
  obtain ⟨_, hcn⟩ := Bool.and_eq_true_iff.mp hrest
  obtain ⟨t, ht⟩ := Option.isSome_iff_exists.mp hm
  obtain ⟨g1, mac, inner⟩ := t
  intro he
  have hcom := rewrittenLine_commented ht
  rw [he] at hcom
  rw [hcom] at hcn
  cases hcn

/-- The C7 counterexample file: a marker preceded by a non-whitespace
character, whose associated class line itself carries a marker. -/
def c7File : List (List Char) :=
  [chars "x ServerImpl(a)\n",
   chars "ServerImpl(b) class Foo : public IServer\n",
   chars "class Bar : public IServer\n"]

/-- C7 counterexample: on `c7File` the neutralizer rewrites marker line 0 to
`" // ServerImpl(a)\n"`, which does not consist of the line's leading
indentation (empty, since the line starts with `x`) followed by the comment
token and the invocation; and line 1 — the type-declaration line associated
with the marker on line 0 — is itself modified. -/
theorem comment_server_impl_counterexample :
    findMarker (c7File.getD 0 []) = some ([' '], chars "ServerImpl(a)", chars "a") ∧
    firstClassInWindow c7File 0 = some (1, chars "Foo") ∧
    (c7File.getD 0 []).takeWhile isWs = [] ∧
    (comment_server_impl_lines c7File).newLines.getD 0 [] = chars " // ServerImpl(a)\n" ∧
    (comment_server_impl_lines c7File).newLines.getD 0 []
      ≠ ((c7File.getD 0 []).takeWhile isWs)
          ++ (chars "// " ++ (chars "ServerImpl(a)" ++ ['\n'])) ∧
    (comment_server_impl_lines c7File).newLines.getD 1 [] ≠ c7File.getD 1 [] := by
  decide

/-- C7 (amended): the neutralizer changes only matched, not-yet-commented
marker lines; every other line is preserved byte for byte.  A rewritten line
consists of the whitespace run immediately preceding the marker invocation
(not necessarily the line's leading indentation — they coincide exactly when
only whitespace precedes the marker), followed by `"// "`, the invocation
text and a newline.  The type-declaration line associated with a marker is
unchanged unless it is itself a rewritable marker line.  The `modified` flag
is false exactly when no line changed, and an unmodified file is never
written back. -/
theorem comment_server_impl_frame (lines : List (List Char)) :
    (comment_server_impl_lines lines).newLines.length = lines.length ∧
    (∀ k, k < lines.length →
      (comment_server_impl_lines lines).newLines.getD k [] ≠ lines.getD k [] →
      ∃ g1 mac inner pre post,
        findMarker (lines.getD k []) = some (g1, mac, inner) ∧
        windowAny lines k = true ∧
        alreadyCommented (lines.getD k []) = false ∧
        (comment_server_impl_lines lines).newLines.getD k []
          = g1 ++ (chars "// " ++ (mac ++ ['\n'])) ∧
        (∀ c ∈ g1, isWs c = true) ∧
        lines.getD k [] = pre ++ g1 ++ (mac ++ post) ∧
        (pre = [] ∨ ∃ d ds, pre = ds ++ [d] ∧ isWs d = false) ∧
        (pre = [] → (lines.getD k []).takeWhile isWs = g1)) ∧
    (∀ k j n, k < lines.length → firstClassInWindow lines k = some (j, n) →
      (comment_server_impl_lines lines).newLines.getD j [] = lines.getD j []
        ∨ shouldRewrite lines j = true) ∧
    ((comment_server_impl_lines lines).modified = false ↔
      (comment_server_impl_lines lines).newLines = lines) ∧
    (∀ (fs : FileSys) (p : List String) (dry : Bool),
      lookupFs fs p = some (FsNode.file lines) →
      (comment_server_impl_lines lines).modified = false →
      (comment_server_impl fs p dry).2 = fs) := by
  obtain ⟨hlen, hget, hmod, hcom⟩ := comment_lines_char lines
  refine ⟨hlen, ?_, ?_, ?_, ?_⟩
  · intro k hk hne
    rw [comment_newLines_getD] at hne ⊢
    by_cases hc : k < lines.length ∧ shouldRewrite lines k = true
    · rw [if_pos hc]
      have hsr := hc.2
      rw [shouldRewrite] at hsr
      obtain ⟨hm, hrest⟩ := Bool.and_eq_true_iff.mp hsr
      obtain ⟨hw, hcn⟩ := Bool.and_eq_true_iff.mp hrest
      obtain ⟨t, ht⟩ := Option.isSome_iff_exists.mp hm
      obtain ⟨g1, mac, inner⟩ := t
      obtain ⟨pre, post, gap, hdec, hg1ws, hpre, hmac, _⟩ := findMarker_sound ht
      refine ⟨g1, mac, inner, pre, post, ht, hw, ?_, ?_, hg1ws, ?_, hpre, ?_⟩
      · cases hcc : alreadyCommented (lines.getD k []) with
        | false => rfl
        | true => rw [hcc] at hcn; cases hcn
      · rw [rewrittenLine, ht]
      · rw [hdec, List.append_assoc]
      · intro hpe
        rw [hdec, hpe, List.nil_append, takeWhile_append_all hg1ws,
          takeWhile_eq_nil_of_head, List.append_nil]
        intro c hch
        rw [hmac] at hch
        rw [show (chars "ServerImpl" ++ (gap ++ '(' :: (inner ++ [')']))) ++ post
          = 'S' :: ((chars "erverImpl" ++ (gap ++ '(' :: (inner ++ [')']))) ++ post)
          from rfl] at hch
        obtain rfl := Option.some.inj hch
        decide
    · rw [if_neg hc] at hne
      exact absurd rfl hne
  · intro k j n hk hf
    by_cases hsr : shouldRewrite lines j = true
    · exact Or.inr hsr
    · left
      rw [comment_newLines_getD, if_neg]
      tauto
  · constructor
    · intro hm0
      rw [hmod, List.any_eq_false] at hm0
      apply List.ext_getElem?
      intro n
      rw [hget n, if_neg]
      rintro ⟨hn1, hn2⟩
      exact hm0 n (List.mem_range.mpr hn1) hn2
    · intro heq
      rw [hmod, List.any_eq_false]
      intro x hx h
      have hxl : x < lines.length := List.mem_range.mp hx
      have hval : (comment_server_impl_lines lines).newLines.getD x []
          = rewrittenLine (lines.getD x []) := by
        rw [comment_newLines_getD, if_pos ⟨hxl, h⟩]
      rw [heq] at hval
      exact rewrittenLine_ne_of_shouldRewrite h hval.symm
  · intro fs p dry hlk hm0
    simp only [comment_server_impl, hlk]
    rw [hm0]
    rfl

/-- Witness for C7 at `c7File`, line 0: the changed line is characterized by
the frame theorem. -/
theorem comment_server_impl_frame_witness :
    ∃ g1 mac inner pre post,
      findMarker (c7File.getD 0 []) = some (g1, mac, inner) ∧
      windowAny c7File 0 = true ∧
      alreadyCommented (c7File.getD 0 []) = false ∧
      (comment_server_impl_lines c7File).newLines.getD 0 []
        = g1 ++ (chars "// " ++ (mac ++ ['\n'])) ∧
      (∀ c ∈ g1, isWs c = true) ∧
      c7File.getD 0 [] = pre ++ g1 ++ (mac ++ post) ∧
      (pre = [] ∨ ∃ d ds, pre = ds ++ [d] ∧ isWs d = false) ∧
      (pre = [] → (c7File.getD 0 []).takeWhile isWs = g1) :=
  (comment_server_impl_frame c7File).2.1 0 (by decide) (by decide)

lemma any_isSome_iff_filterMap_ne_nil {α β} (f : α → Option β) (L : List α) :
    (L.any fun i => (f i).isSome) = true ↔ L.filterMap f ≠ [] := by
  rw [List.any_eq_true, Ne, List.filterMap_eq_nil_iff]
  constructor
  · rintro ⟨x, hx, hs⟩ hall
    rw [hall x hx] at hs
    cases hs
  · intro h
    by_contra hno
    push_neg at hno
    apply h
    intro a ha
    have hna := hno a ha
    cases hfa : f a with
    | none => rfl
    | some b =>
      rw [hfa] at hna
      exact absurd rfl hna

lemma error_msgs_ne (p : List String) :
    ("File does not exist: " ++ absStr p) ≠ ("Path is not a file: " ++ absStr p) := by
  intro h
  have h2 := congrArg String.data h
  rw [String.data_append, String.data_append] at h2
  have h3 := congrArg List.head? h2
  rw [head?_append_left (by decide), head?_append_left (by decide)] at h3
  exact absurd h3 (by decide)

/-- C10: the result dictionaries of `check_server_impl` and of
`check_and_comment_server_impl` satisfy: `found` is true exactly when the
match list is non-empty, and whenever `error` is set the match list is empty
and `found` is false. -/
theorem result_invariant :
    (∀ (fs : FileSys) (p : List String),
      ((check_server_impl fs p).found = true ↔ (check_server_impl fs p).matches' ≠ []) ∧
      (∀ e, (check_server_impl fs p).error = some e →
        (check_server_impl fs p).matches' = [] ∧ (check_server_impl fs p).found = false)) ∧
    (∀ (fs : FileSys) (p : List String),
      ((check_and_comment_server_impl fs p).1.found = true ↔
        (check_and_comment_server_impl fs p).1.matches' ≠ []) ∧
      (∀ e, (check_and_comment_server_impl fs p).1.error = some e →
        (check_and_comment_server_impl fs p).1.matches' = [] ∧
        (check_and_comment_server_impl fs p).1.found = false)) := by
  constructor
  · intro fs p
    cases hlk : lookupFs fs p with
    | none =>
      simp only [check_server_impl, hlk]
      refine ⟨by simp, ?_⟩
      intro e he
      exact ⟨by trivial, by trivial⟩
    | some node =>
      cases node with
      | dir =>
        simp only [check_server_impl, hlk]
        refine ⟨by simp, ?_⟩
        intro e he
        exact ⟨by trivial, by trivial⟩
      | file lines =>
        simp only [check_server_impl, hlk]
        obtain ⟨hM, hF, hE⟩ := check_server_impl_lines_spec lines
        refine ⟨?_, ?_⟩
        · rw [hM, hF]
          exact any_isSome_iff_filterMap_ne_nil _ _
        · intro e he
          rw [hE] at he
          cases he
  · intro fs p
    cases hlk : lookupFs fs p with
    | none =>
      simp only [check_and_comment_server_impl, hlk]
      refine ⟨by simp, ?_⟩
      intro e he
      exact ⟨by trivial, by trivial⟩
    | some node =>
      cases node with
      | dir =>
        simp only [check_and_comment_server_impl, hlk]
        refine ⟨by simp, ?_⟩
        intro e he
        exact ⟨by trivial, by trivial⟩
      | file lines =>
        simp only [check_and_comment_server_impl, hlk]
        obtain ⟨hM, hF⟩ := l3_fold_found_matches p lines (List.range lines.length)
          ⟨false, [], lines, false⟩
        refine ⟨?_, ?_⟩
        · show (check_and_comment_lines p lines).found = true
            ↔ (check_and_comment_lines p lines).matches' ≠ []
          rw [check_and_comment_lines, hM, hF]
          simp only [Bool.false_or, List.nil_append]
          exact any_isSome_iff_filterMap_ne_nil _ _
        · intro e he
          cases he

/-- Witness for C10 at the empty file system: a missing path yields an error
with no matches and `found` false. -/
theorem result_invariant_witness :
    (check_server_impl [] []).matches' = [] ∧ (check_server_impl [] []).found = false :=
  (result_invariant.1 [] []).2 ("File does not exist: " ++ absStr []) (by decide)

/-- C9: a path that does not exist, or that is not a regular file, makes the
per-file scan return a distinct error string with `found` false and no
matches, performs no write, and only skips that file: the main loop continues
with the remaining candidates unchanged. -/
theorem per_file_error_local (fs : FileSys) (p : List String) (ps : List (List String)) :
    (lookupFs fs p = none →
      (check_and_comment_server_impl fs p).1.error
          = some ("File does not exist: " ++ absStr p) ∧
        (check_and_comment_server_impl fs p).1.found = false ∧
        (check_and_comment_server_impl fs p).1.matches' = [] ∧
        (check_and_comment_server_impl fs p).2 = fs ∧
        check_server_impl fs p
          = { found := false, matches' := [],
              error := some ("File does not exist: " ++ absStr p) } ∧
        processFiles fs (p :: ps) = processFiles fs ps) ∧
    (lookupFs fs p = some FsNode.dir →
      (check_and_comment_server_impl fs p).1.error
          = some ("Path is not a file: " ++ absStr p) ∧
        (check_and_comment_server_impl fs p).1.found = false ∧
        (check_and_comment_server_impl fs p).1.matches' = [] ∧
        (check_and_comment_server_impl fs p).2 = fs ∧
        check_server_impl fs p
          = { found := false, matches' := [],
              error := some ("Path is not a file: " ++ absStr p) } ∧
        processFiles fs (p :: ps) = processFiles fs ps) ∧
    ("File does not exist: " ++ absStr p) ≠ ("Path is not a file: " ++ absStr p) := by
  refine ⟨?_, ?_, error_msgs_ne p⟩
  · intro hlk
    have hstep : check_and_comment_server_impl fs p
        = ({ found := false, matches' := [], modified := false,
             error := some ("File does not exist: " ++ absStr p) }, fs) := by
      simp only [check_and_comment_server_impl, hlk]
    refine ⟨by rw [hstep], by rw [hstep], by rw [hstep], by rw [hstep], ?_, ?_⟩
    · simp only [check_server_impl, hlk]
    · simp only [processFiles]
      rw [hstep]
      simp
  · intro hlk
    have hstep : check_and_comment_server_impl fs p
        = ({ found := false, matches' := [], modified := false,
             error := some ("Path is not a file: " ++ absStr p) }, fs) := by
      simp only [check_and_comment_server_impl, hlk]
    refine ⟨by rw [hstep], by rw [hstep], by rw [hstep], by rw [hstep], ?_, ?_⟩
    · simp only [check_server_impl, hlk]
    · simp only [processFiles]
      rw [hstep]
      simp

/-- Witness for C9: one missing path and one directory path on a one-entry
file system. -/
theorem per_file_error_local_witness :
    (check_and_comment_server_impl [(["lib"], FsNode.dir)] ["nope"]).1.error
        = some ("File does not exist: " ++ absStr ["nope"]) ∧
    (check_and_comment_server_impl [(["lib"], FsNode.dir)] ["lib"]).1.error
        = some ("Path is not a file: " ++ absStr ["lib"]) ∧
    processFiles [(["lib"], FsNode.dir)] [["nope"]]
        = processFiles [(["lib"], FsNode.dir)] [] :=
  ⟨((per_file_error_local [(["lib"], FsNode.dir)] ["nope"] []).1 (by decide)).1,
   ((per_file_error_local [(["lib"], FsNode.dir)] ["lib"] []).2.1 (by decide)).1,
   ((per_file_error_local [(["lib"], FsNode.dir)] ["nope"] []).1 (by decide)).2.2.2.2.2⟩

/-! ### C6: registration-code generation (L3 `generate_registration_code`) -/

/-- One factory-registration statement (L3 lines 184-188): the class name is
spliced between `<` and `>`, the argument is re-quoted with double quotes. -/
def regLine (r : RegistrationEntry) : List Char :=
  chars "    ServerFactory::RegisterServer<"
    ++ (r.class_name ++ (chars ">(\"" ++ (r.server_impl_content ++ chars "\");")))

/-- Embedding of `generate_registration_code` (L3 lines 169-191): one statement
per entry in order, then `return true;`, all joined with newlines; the empty
list yields the single default statement `return false;`. -/
def generate_registration_code (registrations : List RegistrationEntry) : List Char :=
  if registrations.isEmpty then chars "    return false;"
  else List.intercalate ['\n'] (registrations.map regLine ++ [chars "    return true;"])

/-- C6: `generate_registration_code` emits, in accumulation order, exactly one
statement per entry — the k-th joined line is
`    ServerFactory::RegisterServer<CLASS>("ARG");` built from the k-th entry,
so duplicates are never dropped — followed by a final `    return true;` line
when at least one entry exists, and for the empty list it is exactly
`    return false;`. -/
theorem generate_registration_code_spec :
    (generate_registration_code [] = chars "    return false;") ∧
    (∀ regs : List RegistrationEntry, regs ≠ [] →
      ∃ ls : List (List Char),
        generate_registration_code regs = List.intercalate ['\n'] ls ∧
        ls.length = regs.length + 1 ∧
        (∀ k, k < regs.length →
          ls.getD k [] = chars "    ServerFactory::RegisterServer<"
            ++ ((regs.getD k ⟨[], [], []⟩).class_name ++ (chars ">(\""
            ++ ((regs.getD k ⟨[], [], []⟩).server_impl_content ++ chars "\");")))) ∧
        ls.getLast? = some (chars "    return true;")) := by
  refine ⟨rfl, ?_⟩
  intro regs hne
  refine ⟨regs.map regLine ++ [chars "    return true;"], ?_, ?_, ?_, ?_⟩
  · rw [generate_registration_code, if_neg (by simp [hne])]
  · simp
  · intro k hk
    rw [List.getD_eq_getElem?_getD, List.getElem?_append,
      if_pos (by simpa using hk), List.getElem?_map]
    rw [List.getD_eq_getElem?_getD]
    cases hg : regs[k]? with
    | none => exact absurd (List.getElem?_eq_getElem hk) (by rw [hg]; exact fun h => by cases h)
    | some r => simp [regLine]
  · rw [getLast?_append_right (by simp)]
    rfl

/-- Witness for C6: a two-entry list with duplicate class names still yields
one statement per entry plus the terminator. -/
theorem generate_registration_code_spec_witness :
    generate_registration_code
        [⟨chars "Echo", chars "a", ["f.h"]⟩, ⟨chars "Echo", chars "b", ["g.h"]⟩]
      = chars "    ServerFactory::RegisterServer<Echo>(\"a\");\n    ServerFactory::RegisterServer<Echo>(\"b\");\n    return true;" := by
  obtain ⟨ls, h1, h2, h3, h4⟩ := generate_registration_code_spec.2
    [⟨chars "Echo", chars "a", ["f.h"]⟩, ⟨chars "Echo", chars "b", ["g.h"]⟩] (by decide)
  have h0 := h3 0 (by decide)
  have h1' := h3 1 (by decide)
  decide

/-! ### C5: include-statement generation (L3 `generate_include_statements`) -/

/-- Embedding of `PurePath.relative_to` on resolved component lists (L3 lines
153 and 158): succeeds exactly when `base` is a component prefix of `p`,
returning the remaining components; otherwise it raises `ValueError`,
modelled as `none`. -/
def relative_to (p base : List String) : Option (List String) :=
  if base.isPrefixOf p then some (p.drop base.length) else none

/-- `str()` of a relative path: `"."` for the empty relative path, else the
components joined with `/`. -/
def relStr (rel : List String) : String :=
  if rel.isEmpty then "." else String.intercalate "/" rel

/-- One include directive for a resolved file path (L3 lines 149-164): quoted
relative to `library_dir/include` if possible, else quoted relative to
`library_dir`, else an angle-bracket absolute path. -/
def includeLine (library_dir fp : List String) : List Char :=
  match relative_to fp (library_dir ++ ["include"]) with
  | some rel => chars "#include \"" ++ (chars (relStr rel) ++ ['"'])
  | none =>
    match relative_to fp library_dir with
    | some rel => chars "#include \"" ++ (chars (relStr rel) ++ ['"'])
    | none => chars "#include <" ++ (chars (absStr fp) ++ ['>'])

/-- The seen-set loop of `generate_include_statements` (L3 lines 141-164):
entries whose resolved path was already seen are skipped, every other entry
contributes its include directive and marks its path as seen. -/
def gen_includes_aux (library_dir : List String) :
    List RegistrationEntry → List (List String) → List (List Char)
  | [], _ => []
  | r :: rs, seen =>
    if seen.contains r.file_path then gen_includes_aux library_dir rs seen
    else includeLine library_dir r.file_path
      :: gen_includes_aux library_dir rs (r.file_path :: seen)

/-- Embedding of `generate_include_statements` (L3 lines 123-166): empty
string for no registrations, else the newline-joined directives of the
seen-set loop started from the empty seen set. -/
def generate_include_statements (registrations : List RegistrationEntry)
    (library_dir : List String) : List Char :=
  if registrations.isEmpty then []
  else List.intercalate ['\n'] (gen_includes_aux library_dir registrations [])

/-- First-seen deduplication of a list of paths: keep each path's first
occurrence, in order. -/
def firstSeen : List (List String) → List (List String)
  | [] => []
  | p :: ps => p :: firstSeen (ps.filter (fun q => q != p))
termination_by l => l.length
decreasing_by
  simp only [List.length_cons]
  exact Nat.lt_succ_of_le (List.length_filter_le _ _)

lemma firstSeen_nil : firstSeen [] = [] := by rw [firstSeen]

lemma firstSeen_cons (p : List String) (ps : List (List String)) :
    firstSeen (p :: ps) = p :: firstSeen (ps.filter (fun q => q != p)) := by
  rw [firstSeen]

lemma firstSeen_mem_aux :
    ∀ (n : Nat) (l : List (List String)), l.length ≤ n →
      ∀ q, (q ∈ firstSeen l ↔ q ∈ l) := by
  intro n
  induction n with
  | zero =>
    intro l hl q
    have hl0 : l = [] := List.eq_nil_of_length_eq_zero (Nat.le_zero.1 hl)
    subst hl0
    rw [firstSeen_nil]
  | succ n ih =>
    intro l hl q
    cases l with
    | nil => rw [firstSeen_nil]
    | cons p ps =>
      rw [firstSeen_cons]
      have hlen : (ps.filter (fun q => q != p)).length ≤ n := by
        have := List.length_filter_le (fun q => q != p) ps
        simp only [List.length_cons, Nat.succ_le_succ_iff] at hl
        omega
      constructor
      · intro hq
        rcases List.mem_cons.1 hq with hq | hq
        · exact hq ▸ List.mem_cons_self _ _
        · exact List.mem_cons_of_mem _ (List.mem_filter.1 ((ih _ hlen q).1 hq)).1
      · intro hq
        rcases List.mem_cons.1 hq with hq | hq
        · exact hq ▸ List.mem_cons_self _ _
        · by_cases hqp : q = p
          · exact hqp ▸ List.mem_cons_self _ _
          · exact List.mem_cons_of_mem _
              ((ih _ hlen q).2 (List.mem_filter.2 ⟨hq, bne_iff_ne.2 hqp⟩))

lemma firstSeen_mem (l : List (List String)) (q : List String) :
    q ∈ firstSeen l ↔ q ∈ l :=
  firstSeen_mem_aux l.length l le_rfl q

lemma firstSeen_nodup_aux :
    ∀ (n : Nat) (l : List (List String)), l.length ≤ n → (firstSeen l).Nodup := by
  intro n
  induction n with
  | zero =>
    intro l hl
    have hl0 : l = [] := List.eq_nil_of_length_eq_zero (Nat.le_zero.1 hl)
    subst hl0
    rw [firstSeen_nil]
    exact List.nodup_nil
  | succ n ih =>
    intro l hl
    cases l with
    | nil => rw [firstSeen_nil]; exact List.nodup_nil
    | cons p ps =>
      rw [firstSeen_cons]
      have hlen : (ps.filter (fun q => q != p)).length ≤ n := by
        have := List.length_filter_le (fun q => q != p) ps
        simp only [List.length_cons, Nat.succ_le_succ_iff] at hl
        omega
      refine List.nodup_cons.2 ⟨?_, ih _ hlen⟩
      intro hp
      have := (List.mem_filter.1 ((firstSeen_mem _ _).1 hp)).2
      simp at this

lemma firstSeen_sublist_aux :
    ∀ (n : Nat) (l : List (List String)), l.length ≤ n → List.Sublist (firstSeen l) l := by
  intro n
  induction n with
  | zero =>
    intro l hl
    have hl0 : l = [] := List.eq_nil_of_length_eq_zero (Nat.le_zero.1 hl)
    subst hl0
    rw [firstSeen_nil]
  | succ n ih =>
    intro l hl
    cases l with
    | nil => rw [firstSeen_nil]
    | cons p ps =>
      rw [firstSeen_cons]
      have hlen : (ps.filter (fun q => q != p)).length ≤ n := by
        have := List.length_filter_le (fun q => q != p) ps
        simp only [List.length_cons, Nat.succ_le_succ_iff] at hl
        omega
      exact List.Sublist.cons₂ p ((ih _ hlen).trans (List.filter_sublist ps))

lemma firstSeen_sublist (l : List (List String)) :
    List.Sublist (firstSeen l) l :=
  firstSeen_sublist_aux l.length l le_rfl


lemma indexOf_cons_self_beq (a : List String) (l : List (List String)) :
    List.indexOf a (a :: l) = 0 := by
  rw [List.indexOf_cons]
  simp

lemma indexOf_cons_ne_beq {x a : List String} (l : List (List String)) (h : x ≠ a) :
    List.indexOf a (x :: l) = List.indexOf a l + 1 := by
  rw [List.indexOf_cons, beq_eq_false_iff_ne.2 h, cond_false]

lemma indexOf_filter_transfer (pred : List String → Bool) :
    ∀ (l : List (List String)) (a b : List String),
      pred a = true → pred b = true →
      (l.filter pred).indexOf a < (l.filter pred).indexOf b →
      l.indexOf a < l.indexOf b := by
  intro l
  induction l with
  | nil => intro a b _ _ h; simp [List.indexOf] at h
  | cons x t ih =>
    intro a b ha hb h
    by_cases hax : a = x
    · subst hax
      rw [indexOf_cons_self_beq]
      have hba : b ≠ a := by
        intro hba
        subst hba
        exact Nat.lt_irrefl _ h
      rw [indexOf_cons_ne_beq _ (Ne.symm hba)]
      exact Nat.succ_pos _
    · by_cases hbx : b = x
      · subst hbx
        rw [List.filter_cons_of_pos hb, indexOf_cons_self_beq] at h
        exact absurd h (Nat.not_lt_zero _)
      · rw [indexOf_cons_ne_beq _ (Ne.symm hax), indexOf_cons_ne_beq _ (Ne.symm hbx)]
        refine Nat.succ_lt_succ (ih a b ha hb ?_)
        cases hx : pred x with
        | false => rwa [List.filter_cons_of_neg (by simp [hx])] at h
        | true =>
          rw [List.filter_cons_of_pos hx, indexOf_cons_ne_beq _ (Ne.symm hax),
            indexOf_cons_ne_beq _ (Ne.symm hbx)] at h
          exact Nat.lt_of_succ_lt_succ h

lemma firstSeen_pairwise_aux :
    ∀ (n : Nat) (l : List (List String)), l.length ≤ n →
      (firstSeen l).Pairwise (fun a b => l.indexOf a < l.indexOf b) := by
  intro n
  induction n with
  | zero =>
    intro l hl
    have hl0 : l = [] := List.eq_nil_of_length_eq_zero (Nat.le_zero.1 hl)
    subst hl0
    rw [firstSeen_nil]
    exact List.Pairwise.nil
  | succ n ih =>
    intro l hl
    cases l with
    | nil => rw [firstSeen_nil]; exact List.Pairwise.nil
    | cons p ps =>
      rw [firstSeen_cons]
      have hlen : (ps.filter (fun q => q != p)).length ≤ n := by
        have := List.length_filter_le (fun q => q != p) ps
        simp only [List.length_cons, Nat.succ_le_succ_iff] at hl
        omega
      refine List.pairwise_cons.2 ⟨?_, ?_⟩
      · intro b hb
        have hbf := (firstSeen_mem _ _).1 hb
        have hbp : b ≠ p := bne_iff_ne.1 (List.mem_filter.1 hbf).2
        rw [indexOf_cons_self_beq, indexOf_cons_ne_beq _ (Ne.symm hbp)]
        exact Nat.succ_pos _
      · refine List.Pairwise.imp_of_mem ?_ (ih _ hlen)
        intro a b hamem hbmem hab
        have haf := List.mem_filter.1 ((firstSeen_mem _ _).1 hamem)
        have hbf := List.mem_filter.1 ((firstSeen_mem _ _).1 hbmem)
        have hap : a ≠ p := bne_iff_ne.1 haf.2
        have hbp : b ≠ p := bne_iff_ne.1 hbf.2
        rw [indexOf_cons_ne_beq _ (Ne.symm hap), indexOf_cons_ne_beq _ (Ne.symm hbp)]
        exact Nat.succ_lt_succ (indexOf_filter_transfer _ ps a b haf.2 hbf.2 hab)

lemma firstSeen_pairwise (l : List (List String)) :
    (firstSeen l).Pairwise (fun a b => l.indexOf a < l.indexOf b) :=
  firstSeen_pairwise_aux l.length l le_rfl

lemma gen_includes_aux_eq (lib : List String) :
    ∀ (regs : List RegistrationEntry) (seen : List (List String)),
      gen_includes_aux lib regs seen
        = (firstSeen ((regs.map (fun r => r.file_path)).filter
            (fun q => !seen.contains q))).map (includeLine lib) := by
  intro regs
  induction regs with
  | nil => intro seen; rw [gen_includes_aux]; simp [firstSeen_nil]
  | cons r rs ih =>
    intro seen
    rw [gen_includes_aux, List.map_cons]
    cases hc : seen.contains r.file_path with
    | true =>
      rw [if_pos rfl, List.filter_cons_of_neg (by rw [hc]; decide)]
      exact ih seen
    | false =>
      rw [if_neg (by decide), List.filter_cons_of_pos (by rw [hc]; decide),
        firstSeen_cons, List.map_cons, ih (r.file_path :: seen)]
      have hfilter : (rs.map (fun r => r.file_path)).filter
            (fun q => !(r.file_path :: seen).contains q)
          = ((rs.map (fun r => r.file_path)).filter
              (fun q => !seen.contains q)).filter (fun q => q != r.file_path) := by
        rw [List.filter_filter]
        refine List.filter_congr ?_
        intro a _
        rw [List.contains_cons, Bool.not_or]
        rfl
      rw [hfilter]

/-- C5: for a non-empty registration list, `generate_include_statements` is
the newline-join of one directive per distinct resolved path in first-seen
order (`firstSeen` keeps exactly the first occurrences: no duplicates, a
subsequence of the input, same members, and positions ordered by first
occurrence), and the directive for each path follows the priority: quoted
relative to `library_dir/include`, else quoted relative to `library_dir`,
else angle-bracket absolute. -/
theorem generate_include_statements_spec :
    (∀ (regs : List RegistrationEntry) (lib : List String), regs ≠ [] →
      generate_include_statements regs lib
        = List.intercalate ['\n']
            ((firstSeen (regs.map (fun r => r.file_path))).map (includeLine lib))) ∧
    (∀ lib : List String, generate_include_statements [] lib = []) ∧
    (∀ paths : List (List String),
      (firstSeen paths).Nodup ∧ List.Sublist (firstSeen paths) paths ∧
        (∀ q, q ∈ firstSeen paths ↔ q ∈ paths) ∧
        (firstSeen paths).Pairwise (fun a b => paths.indexOf a < paths.indexOf b)) ∧
    (∀ lib fp : List String,
      ((lib ++ ["include"]).isPrefixOf fp = true →
        includeLine lib fp
          = chars "#include \"" ++ (chars (relStr (fp.drop (lib.length + 1))) ++ ['"'])) ∧
      ((lib ++ ["include"]).isPrefixOf fp = false → lib.isPrefixOf fp = true →
        includeLine lib fp
          = chars "#include \"" ++ (chars (relStr (fp.drop lib.length)) ++ ['"'])) ∧
      ((lib ++ ["include"]).isPrefixOf fp = false → lib.isPrefixOf fp = false →
        includeLine lib fp = chars "#include <" ++ (chars (absStr fp) ++ ['>']))) := by
  refine ⟨?_, fun lib => rfl, ?_, ?_⟩
  · intro regs lib hne
    rw [generate_include_statements, if_neg (by simp [hne]), gen_includes_aux_eq]
    have hfilt : List.filter (fun q => !(([] : List (List String)).contains q))
          (List.map (fun r => r.file_path) regs)
        = List.map (fun r => r.file_path) regs :=
      List.filter_eq_self.mpr (fun a _ => rfl)
    rw [hfilt]
  · intro paths
    exact ⟨firstSeen_nodup_aux paths.length paths le_rfl, firstSeen_sublist paths,
      fun q => firstSeen_mem paths q, firstSeen_pairwise paths⟩
  · intro lib fp
    refine ⟨?_, ?_, ?_⟩
    · intro h1
      have hrt : relative_to fp (lib ++ ["include"]) = some (fp.drop (lib.length + 1)) := by
        rw [relative_to, if_pos h1]
        simp
      simp only [includeLine, hrt]
    · intro h1 h2
      have hrt1 : relative_to fp (lib ++ ["include"]) = none := by
        rw [relative_to, if_neg (by simp [h1])]
      have hrt2 : relative_to fp lib = some (fp.drop lib.length) := by
        rw [relative_to, if_pos h2]
      simp only [includeLine, hrt1, hrt2]
    · intro h1 h2
      have hrt1 : relative_to fp (lib ++ ["include"]) = none := by
        rw [relative_to, if_neg (by simp [h1])]
      have hrt2 : relative_to fp lib = none := by
        rw [relative_to, if_neg (by simp [h2])]
      simp only [includeLine, hrt1, hrt2]

/-- Witness for C5: two entries sharing a resolved path plus one foreign path
yield exactly two directives in first-seen order, and a path under the library
root but outside its `include` subdirectory gets the library-relative quoted
form. -/
theorem generate_include_statements_spec_witness :
    generate_include_statements
        [⟨chars "A", chars "a", ["home", "lib", "include", "a.h"]⟩,
         ⟨chars "B", chars "b", ["home", "lib", "include", "a.h"]⟩,
         ⟨chars "C", chars "c", ["other", "c.h"]⟩] ["home", "lib"]
      = chars "#include \"a.h\"\n#include </other/c.h>" ∧
    includeLine ["home", "lib"] ["home", "lib", "src", "b.h"]
      = chars "#include \"src/b.h\"" := by
  constructor
  · rw [generate_include_statements_spec.1 _ ["home", "lib"] (by decide)]
    have hmap : List.map (fun r => r.file_path)
          [(⟨chars "A", chars "a", ["home", "lib", "include", "a.h"]⟩ : RegistrationEntry),
           ⟨chars "B", chars "b", ["home", "lib", "include", "a.h"]⟩,
           ⟨chars "C", chars "c", ["other", "c.h"]⟩]
        = [["home", "lib", "include", "a.h"], ["home", "lib", "include", "a.h"],
           ["other", "c.h"]] := rfl
    have hf1 : List.filter (fun q => q != ["home", "lib", "include", "a.h"])
          [["home", "lib", "include", "a.h"], ["other", "c.h"]]
        = [["other", "c.h"]] := by decide
    have hf2 : List.filter (fun q => q != ["other", "c.h"]) ([] : List (List String))
        = [] := rfl
    rw [hmap, firstSeen_cons, hf1, firstSeen_cons, hf2, firstSeen_nil]
    decide
  · rw [(generate_include_statements_spec.2.2.2 ["home", "lib"]
      ["home", "lib", "src", "b.h"]).2.1 (by decide) (by decide)]
    decide

/-! ### C1/C8: `update_server_factory_init` (L3 lines 194-280) -/

/-- Consume a literal: `some` of the remainder when `lit` is a prefix. -/
def eatLit (lit l : List Char) : Option (List Char) :=
  if lit.isPrefixOf l then some (l.drop lit.length) else none

/-- Consume a maximal whitespace run (required non-empty when `needWs`, for
`\s+`) followed by a literal; returns the run and the remainder.  The run is
deterministic: every `\s*`/`\s+` in the Init-placeholder pattern is followed
by a non-whitespace literal character, so the greedy maximal run is the only
viable one. -/
def eatWsLit (needWs : Bool) (lit l : List Char) : Option (List Char × List Char) :=
  let w := l.takeWhile isWs
  if needWs && w.isEmpty then none
  else (eatLit lit (l.dropWhile isWs)).map (fun r => (w, r))

/-- Match of the placeholder pattern
`(inline\s+Bool\s+Init\s*\(\s*\)\s*\{)\s*return\s+false\s*;(\s*\})`
(L3 lines 225-228) anchored at the start of `l`: returns group 1, group 2, the
middle text standing between them (so that group 1, middle and group 2
concatenated are the whole match, needed for `\g<0>` references), and the
remainder after the whole match. -/
def matchInitHere (l : List Char) :
    Option (List Char × List Char × List Char × List Char) :=
  match eatLit (chars "inline") l with
  | none => none
  | some r1 =>
    match eatWsLit true (chars "Bool") r1 with
    | none => none
    | some (w1, r2) =>
      match eatWsLit true (chars "Init") r2 with
      | none => none
      | some (w2, r3) =>
        match eatWsLit false ['('] r3 with
        | none => none
        | some (w3, r4) =>
          match eatWsLit false [')'] r4 with
          | none => none
          | some (w4, r5) =>
            match eatWsLit false [lb] r5 with
            | none => none
            | some (w5, r6) =>
              match eatWsLit false (chars "return") r6 with
              | none => none
              | some (w6, r7) =>
                match eatWsLit true (chars "false") r7 with
                | none => none
                | some (w7, r8) =>
                  match eatWsLit false [';'] r8 with
                  | none => none
                  | some (w8, r9) =>
                    match eatWsLit false [rb] r9 with
                    | none => none
                    | some (w9, r10) =>
                      some (chars "inline" ++ w1 ++ chars "Bool" ++ w2 ++ chars "Init"
                          ++ w3 ++ ['('] ++ w4 ++ [')'] ++ w5 ++ [lb],
                        w9 ++ [rb],
                        w6 ++ chars "return" ++ w7 ++ chars "false" ++ w8 ++ [';'],
                        r10)

lemma eatLit_length {lit l r : List Char} (h : eatLit lit l = some r) :
    r.length + lit.length = l.length := by
  rw [eatLit] at h
  by_cases hp : lit.isPrefixOf l
  · rw [if_pos hp, Option.some_inj] at h
    subst h
    have hle := (List.isPrefixOf_iff_prefix.1 hp).length_le
    simp [List.length_drop]
    omega
  · rw [if_neg hp] at h
    exact Option.noConfusion h

lemma eatWsLit_length {b : Bool} {lit l w r : List Char}
    (h : eatWsLit b lit l = some (w, r)) : r.length + lit.length ≤ l.length := by
  rw [eatWsLit] at h
  by_cases hg : (b && (l.takeWhile isWs).isEmpty) = true
  · rw [if_pos hg] at h
    exact Option.noConfusion h
  · rw [if_neg hg] at h
    cases he : eatLit lit (l.dropWhile isWs) with
    | none => rw [he] at h; exact Option.noConfusion h
    | some r' =>
      rw [he, Option.map_some'] at h
      have hr : r' = r := congrArg Prod.snd (Option.some_inj.1 h)
      subst hr
      have h1 := eatLit_length he
      have h2 : (l.dropWhile isWs).length ≤ l.length :=
        (List.dropWhile_sublist _).length_le
      omega

lemma matchInitHere_rest_lt {l g1 g2 mid rest : List Char}
    (h : matchInitHere l = some (g1, g2, mid, rest)) : rest.length < l.length := by
  rw [matchInitHere] at h
  cases h1 : eatLit (chars "inline") l with
  | none => simp only [h1] at h; exact Option.noConfusion h
  | some r1 =>
  simp only [h1] at h
  cases h2 : eatWsLit true (chars "Bool") r1 with
  | none => simp only [h2] at h; exact Option.noConfusion h
  | some p2 =>
  obtain ⟨w1, r2⟩ := p2
  simp only [h2] at h
  cases h3 : eatWsLit true (chars "Init") r2 with
  | none => simp only [h3] at h; exact Option.noConfusion h
  | some p3 =>
  obtain ⟨w2, r3⟩ := p3
  simp only [h3] at h
  cases h4 : eatWsLit false ['('] r3 with
  | none => simp only [h4] at h; exact Option.noConfusion h
  | some p4 =>
  obtain ⟨w3, r4⟩ := p4
  simp only [h4] at h
  cases h5 : eatWsLit false [')'] r4 with
  | none => simp only [h5] at h; exact Option.noConfusion h
  | some p5 =>
  obtain ⟨w4, r5⟩ := p5
  simp only [h5] at h
  cases h6 : eatWsLit false [lb] r5 with
  | none => simp only [h6] at h; exact Option.noConfusion h
  | some p6 =>
  obtain ⟨w5, r6⟩ := p6
  simp only [h6] at h
  cases h7 : eatWsLit false (chars "return") r6 with
  | none => simp only [h7] at h; exact Option.noConfusion h
  | some p7 =>
  obtain ⟨w6, r7⟩ := p7
  simp only [h7] at h
  cases h8 : eatWsLit true (chars "false") r7 with
  | none => simp only [h8] at h; exact Option.noConfusion h
  | some p8 =>
  obtain ⟨w7, r8⟩ := p8
  simp only [h8] at h
  cases h9 : eatWsLit false [';'] r8 with
  | none => simp only [h9] at h; exact Option.noConfusion h
  | some p9 =>
  obtain ⟨w8, r9⟩ := p9
  simp only [h9] at h
  cases h10 : eatWsLit false [rb] r9 with
  | none => simp only [h10] at h; exact Option.noConfusion h
  | some p10 =>
  obtain ⟨w9, r10⟩ := p10
  simp only [h10, Option.some_inj] at h
  have hrest : r10 = rest := congrArg (fun t => t.2.2.2) h
  subst hrest
  have e1 := eatLit_length h1
  have e2 := eatWsLit_length h2
  have e3 := eatWsLit_length h3
  have e4 := eatWsLit_length h4
  have e5 := eatWsLit_length h5
  have e6 := eatWsLit_length h6
  have e7 := eatWsLit_length h7
  have e8 := eatWsLit_length h8
  have e9 := eatWsLit_length h9
  have e10 := eatWsLit_length h10
  simp only [List.length_cons, List.length_nil] at e4 e5 e6 e9 e10
  have hc6 : (chars "inline").length = 6 := rfl
  have hc4 : (chars "Bool").length = 4 := rfl
  have hc4' : (chars "Init").length = 4 := rfl
  have hc6' : (chars "return").length = 6 := rfl
  have hc5 : (chars "false").length = 5 := rfl
  omega

/-- `pattern.search(content).start()` (L3 line 234): index of the leftmost
position whose suffix matches the placeholder pattern. -/
def findInitAux : List Char → Nat → Option Nat
  | [], _ => none
  | c :: cs, i =>
    if (matchInitHere (c :: cs)).isSome then some i else findInitAux cs (i + 1)

def findInit (l : List Char) : Option Nat := findInitAux l 0

lemma findInitAux_none :
    ∀ (l : List Char) (i0 : Nat), findInitAux l i0 = none →
      ∀ i, matchInitHere (l.drop i) = none := by
  intro l
  induction l with
  | nil => intro i0 _ i; rw [List.drop_nil]; rfl
  | cons c cs ih =>
    intro i0 h i
    rw [findInitAux] at h
    by_cases hm : (matchInitHere (c :: cs)).isSome
    · rw [if_pos hm] at h
      exact Option.noConfusion h
    · rw [if_neg hm] at h
      cases i with
      | zero =>
        rw [List.drop_zero]
        exact Option.not_isSome_iff_eq_none.1 hm
      | succ i => exact ih (i0 + 1) h i

lemma findInitAux_some :
    ∀ (l : List Char) (i0 s : Nat), findInitAux l i0 = some s →
      i0 ≤ s ∧ s - i0 ≤ l.length ∧ (matchInitHere (l.drop (s - i0))).isSome = true
        ∧ ∀ j < s - i0, matchInitHere (l.drop j) = none := by
  intro l
  induction l with
  | nil => intro i0 s h; exact Option.noConfusion h
  | cons c cs ih =>
    intro i0 s h
    rw [findInitAux] at h
    by_cases hm : (matchInitHere (c :: cs)).isSome
    · rw [if_pos hm, Option.some_inj] at h
      subst h
      refine ⟨le_rfl, by simp, by simpa using hm, ?_⟩
      intro j hj
      omega
    · rw [if_neg hm] at h
      obtain ⟨h1, h2, h3, h4⟩ := ih (i0 + 1) s h
      refine ⟨by omega, ?_, ?_, ?_⟩
      · simp only [List.length_cons]
        omega
      · have : s - i0 = (s - (i0 + 1)) + 1 := by omega
        rw [this, List.drop_succ_cons]
        exact h3
      · intro j hj
        cases j with
        | zero =>
          rw [List.drop_zero]
          exact Option.not_isSome_iff_eq_none.1 hm
        | succ j =>
          rw [List.drop_succ_cons]
          exact h4 j (by omega)

lemma findInit_le_length {l : List Char} {s : Nat} (h : findInit l = some s) :
    s ≤ l.length := by
  obtain ⟨_, h2, _, _⟩ := findInitAux_some l 0 s h
  omega

/-- `sub` occurs in `l[0:stop]` starting at `i` (the occurrence must lie
entirely inside the bound, as for Python slice-bounded `find`/`rfind`). -/
def occursAt (pat l : List Char) (stop i : Nat) : Bool :=
  decide (i + pat.length ≤ stop) && pat.isPrefixOf (l.drop i)

/-- `str.rfind(pat, 0, stop)` (L3 lines 240-241): scan start positions
downwards from `k`. -/
def rfindFrom (pat l : List Char) (stop : Nat) : Nat → Option Nat
  | 0 => if occursAt pat l stop 0 then some 0 else none
  | k + 1 => if occursAt pat l stop (k + 1) then some (k + 1) else rfindFrom pat l stop k

def rfindIdx (pat l : List Char) (stop : Nat) : Option Nat :=
  rfindFrom pat l stop stop

/-- `str.find(pat, start)` (L3 lines 246, 253-254): scan start positions
upwards; occurrences are bounded by the end of the text. -/
def ffindFrom (pat l : List Char) : Nat → Nat → Option Nat
  | _, 0 => none
  | i, fuel + 1 =>
    if occursAt pat l l.length i then some i else ffindFrom pat l (i + 1) fuel

def findIdxFrom (pat l : List Char) (start : Nat) : Option Nat :=
  ffindFrom pat l start (l.length + 1 - start)

lemma rfindFrom_some_iff (pat l : List Char) (stop : Nat) :
    ∀ (k i : Nat), (rfindFrom pat l stop k = some i ↔
      (i ≤ k ∧ occursAt pat l stop i = true
        ∧ ∀ j, i < j → j ≤ k → occursAt pat l stop j = false)) := by
  intro k
  induction k with
  | zero =>
    intro i
    rw [rfindFrom]
    by_cases h0 : occursAt pat l stop 0 = true
    · rw [if_pos h0]
      constructor
      · intro h
        have : i = 0 := (Option.some_inj.1 h).symm
        subst this
        exact ⟨le_rfl, h0, fun j hj1 hj2 => absurd (Nat.lt_of_lt_of_le hj1 hj2) (by omega)⟩
      · intro ⟨h1, _, _⟩
        have : i = 0 := by omega
        subst this
        rfl
    · rw [if_neg h0]
      constructor
      · intro h; exact Option.noConfusion h
      · intro ⟨h1, h2, _⟩
        have : i = 0 := by omega
        subst this
        exact absurd h2 h0
  | succ k ih =>
    intro i
    rw [rfindFrom]
    by_cases hk : occursAt pat l stop (k + 1) = true
    · rw [if_pos hk]
      constructor
      · intro h
        have : i = k + 1 := (Option.some_inj.1 h).symm
        subst this
        exact ⟨le_rfl, hk, fun j hj1 hj2 => absurd (Nat.lt_of_lt_of_le hj1 hj2) (by omega)⟩
      · intro ⟨h1, h2, h3⟩
        rcases Nat.lt_or_ge i (k + 1) with hlt | hge
        · exact absurd hk (by simp [h3 (k + 1) hlt le_rfl])
        · have : i = k + 1 := by omega
          subst this
          rfl
    · rw [if_neg hk]
      rw [ih i]
      constructor
      · intro ⟨h1, h2, h3⟩
        refine ⟨by omega, h2, ?_⟩
        intro j hj1 hj2
        rcases Nat.lt_or_ge j (k + 1) with hlt | hge
        · exact h3 j hj1 (by omega)
        · have : j = k + 1 := by omega
          subst this
          exact Bool.eq_false_iff.2 hk
      · intro ⟨h1, h2, h3⟩
        have hik : i ≤ k := by
          rcases Nat.lt_or_ge i (k + 1) with hlt | hge
          · omega
          · have : i = k + 1 := by omega
            subst this
            exact absurd h2 hk
        exact ⟨hik, h2, fun j hj1 hj2 => h3 j hj1 (by omega)⟩

lemma rfindFrom_none_iff (pat l : List Char) (stop : Nat) :
    ∀ (k : Nat), (rfindFrom pat l stop k = none ↔
      ∀ j, j ≤ k → occursAt pat l stop j = false) := by
  intro k
  induction k with
  | zero =>
    rw [rfindFrom]
    by_cases h0 : occursAt pat l stop 0 = true
    · rw [if_pos h0]
      constructor
      · intro h; exact Option.noConfusion h
      · intro h; exact absurd h0 (by simp [h 0 le_rfl])
    · rw [if_neg h0]
      constructor
      · intro _ j hj
        have hj0 : j = 0 := by omega
        subst hj0
        exact Bool.eq_false_iff.2 h0
      · intro _
        rfl
  | succ k ih =>
    rw [rfindFrom]
    by_cases hk : occursAt pat l stop (k + 1) = true
    · rw [if_pos hk]
      constructor
      · intro h; exact Option.noConfusion h
      · intro h; exact absurd hk (by simp [h (k + 1) le_rfl])
    · rw [if_neg hk, ih]
      constructor
      · intro h j hj
        rcases Nat.lt_or_ge j (k + 1) with hlt | hge
        · exact h j (by omega)
        · have : j = k + 1 := by omega
          subst this
          exact Bool.eq_false_iff.2 hk
      · intro h j hj
        exact h j (by omega)

lemma ffindFrom_some_iff (pat l : List Char) :
    ∀ (fuel i j : Nat), (ffindFrom pat l i fuel = some j ↔
      (i ≤ j ∧ j < i + fuel ∧ occursAt pat l l.length j = true
        ∧ ∀ k, i ≤ k → k < j → occursAt pat l l.length k = false)) := by
  intro fuel
  induction fuel with
  | zero =>
    intro i j
    rw [ffindFrom]
    constructor
    · intro h; exact Option.noConfusion h
    · intro ⟨h1, h2, _, _⟩; omega
  | succ fuel ih =>
    intro i j
    rw [ffindFrom]
    by_cases hi : occursAt pat l l.length i = true
    · rw [if_pos hi]
      constructor
      · intro h
        have : j = i := (Option.some_inj.1 h).symm
        subst this
        exact ⟨le_rfl, by omega, hi, fun k hk1 hk2 => by omega⟩
      · intro ⟨h1, h2, h3, h4⟩
        rcases Nat.lt_or_ge i j with hlt | hge
        · exact absurd hi (by simp [h4 i le_rfl hlt])
        · have : j = i := by omega
          subst this
          rfl
    · rw [if_neg hi, ih (i + 1) j]
      constructor
      · intro ⟨h1, h2, h3, h4⟩
        refine ⟨by omega, by omega, h3, ?_⟩
        intro k hk1 hk2
        rcases Nat.lt_or_ge k (i + 1) with hlt | hge
        · have : k = i := by omega
          subst this
          exact Bool.eq_false_iff.2 hi
        · exact h4 k hge hk2
      · intro ⟨h1, h2, h3, h4⟩
        have hij : i ≠ j := by
          intro he
          subst he
          exact hi h3
        exact ⟨by omega, by omega, h3, fun k hk1 hk2 => h4 k (by omega) hk2⟩

lemma ffindFrom_none_iff (pat l : List Char) :
    ∀ (fuel i : Nat), (ffindFrom pat l i fuel = none ↔
      ∀ j, i ≤ j → j < i + fuel → occursAt pat l l.length j = false) := by
  intro fuel
  induction fuel with
  | zero =>
    intro i
    rw [ffindFrom]
    exact ⟨fun _ j hj1 hj2 => by omega, fun _ => rfl⟩
  | succ fuel ih =>
    intro i
    rw [ffindFrom]
    by_cases hi : occursAt pat l l.length i = true
    · rw [if_pos hi]
      constructor
      · intro h; exact Option.noConfusion h
      · intro h; exact absurd hi (by simp [h i le_rfl (by omega)])
    · rw [if_neg hi, ih (i + 1)]
      constructor
      · intro h j hj1 hj2
        rcases Nat.lt_or_ge j (i + 1) with hlt | hge
        · have : j = i := by omega
          subst this
          exact Bool.eq_false_iff.2 hi
        · exact h j hge (by omega)
      · intro h j hj1 hj2
        exact h j (by omega) (by omega)

/-- `content[i:i+1].strip() == ''` (L3 lines 248, 256): true when the
character at `i` is whitespace or `i` is past the end of the text. -/
def emptyStripAt (l : List Char) (i : Nat) : Bool :=
  match (l.drop i).head? with
  | some c => isWs c
  | none => true

/-- The blank-skipping loop (L3 lines 247-249 and 255-257), fuel-indexed; the
fuel `stop - i` never runs out because the guard requires `i < stop`. -/
def skipWsF (l : List Char) (stop : Nat) : Nat → Nat → Nat
  | 0, i => i
  | fuel + 1, i =>
    if decide (i < stop) && emptyStripAt l i then skipWsF l stop fuel (i + 1) else i

def skipWs (l : List Char) (stop i : Nat) : Nat := skipWsF l stop (stop - i) i

lemma skipWsF_spec (l : List Char) (stop : Nat) :
    ∀ (fuel i : Nat), stop ≤ i + fuel →
      i ≤ skipWsF l stop fuel i
        ∧ (∀ k, i ≤ k → k < skipWsF l stop fuel i →
            (k < stop ∧ emptyStripAt l k = true))
        ∧ ¬(skipWsF l stop fuel i < stop ∧ emptyStripAt l (skipWsF l stop fuel i) = true) := by
  intro fuel
  induction fuel with
  | zero =>
    intro i hstop
    rw [skipWsF]
    exact ⟨le_rfl, fun k hk1 hk2 => by omega, fun ⟨h1, _⟩ => by omega⟩
  | succ fuel ih =>
    intro i hstop
    rw [skipWsF]
    by_cases hg : (decide (i < stop) && emptyStripAt l i) = true
    · rw [if_pos hg]
      have hg' := Bool.and_elim_left hg
      have hg2 := Bool.and_elim_right hg
      have hi : i < stop := of_decide_eq_true hg'
      obtain ⟨ih1, ih2, ih3⟩ := ih (i + 1) (by omega)
      refine ⟨by omega, ?_, ih3⟩
      intro k hk1 hk2
      rcases Nat.lt_or_ge k (i + 1) with hlt | hge
      · have : k = i := by omega
        subst this
        exact ⟨hi, hg2⟩
      · exact ih2 k hge hk2
    · rw [if_neg hg]
      refine ⟨le_rfl, fun k hk1 hk2 => by omega, ?_⟩
      intro ⟨h1, h2⟩
      exact hg (by simp [h1, h2])

lemma skipWs_spec (l : List Char) (stop i : Nat) :
    i ≤ skipWs l stop i
      ∧ (∀ k, i ≤ k → k < skipWs l stop i → (k < stop ∧ emptyStripAt l k = true))
      ∧ ¬(skipWs l stop i < stop ∧ emptyStripAt l (skipWs l stop i) = true) := by
  rw [skipWs]
  exact skipWsF_spec l stop (stop - i) i (by omega)

/-- Insertion point for the include block (L3 lines 236-261), given the start
position `s` of the placeholder match: after the last `#include` before `s`
(from the character following that line's newline, or position 0 when no
newline follows, skipping whitespace characters while before `s`); else the
same from the end of the last `/**` comment before `s` (`find` of `*/`
yielding position 1 when absent); else exactly `s`. -/
def insertPos (c : List Char) (s : Nat) : Nat :=
  match rfindIdx (chars "#include") c s with
  | some ip =>
    skipWs c s
      (match findIdxFrom ['\n'] c ip with
       | some j => j + 1
       | none => 0)
  | none =>
    match rfindIdx (chars "/**") c s with
    | some cp =>
      skipWs c s
        (match findIdxFrom ['\n'] c
            (match findIdxFrom (chars "*/") c cp with
             | some j => j + 2
             | none => 1) with
         | some j => j + 1
         | none => 0)
    | none => s

/-- The include-insertion step (L3 lines 232-261): when the placeholder is
found, splice the include block and a blank-line separator at `insertPos`;
when it is not found, leave the text unchanged. -/
def insertIncludes (includes c : List Char) : List Char :=
  match findInit c with
  | some s => c.take (insertPos c s) ++ (includes ++ (chars "\n\n" ++ c.drop (insertPos c s)))
  | none => c

/-! #### Replacement-template processing of `re.sub` (CPython `parse_template`)

The replacement string `r'\1\n' + registration_code + r'\2'` handed to
`pattern.sub` (L3 lines 264-265) is parsed by CPython's
`re._parser.parse_template` before any match is attempted, so invalid
escapes in the registration code raise `re.error` (or `IndexError` for an
unknown `\g<...>` name) into the blanket `except` of
`update_server_factory_init`, and valid escapes (`\n`, octal, group
references) change the substituted text.  The functions below embed
`parse_template`, its `Tokenizer` (one-token lookahead, backslash pairing,
eager `bad escape (end of pattern)`), and the exact `re.error` message
formatting `"%s at position %d"` plus the `" (line %d, column %d)"` suffix
used when the replacement string contains a newline.  Character
classification (digits, letters, identifiers, `repr`) follows the ASCII
semantics, as elsewhere in this development. -/

/-- Decimal digits of a natural number. -/
def natChars (n : Nat) : List Char := (Nat.repr n).toList

/-- `re.error` message formatting (its `__init__`): `msg at position pos`,
with a line/column suffix when the string being parsed contains a newline. -/
def emsgAt (t m : List Char) (pos : Nat) : List Char :=
  let m1 := m ++ (chars " at position " ++ natChars pos)
  if t.contains '\n' then
    let lineno := ((t.take pos).filter (fun c => c == '\n')).length + 1
    let colno := match rfindIdx ['\n'] t pos with
      | some j => pos - j
      | none => pos + 1
    m1 ++ (chars " (line " ++ (natChars lineno ++ (chars ", column " ++ (natChars colno ++ [')']))))
  else m1

def isOct (c : Char) : Bool := 48 ≤ c.toNat && c.toNat ≤ 55

def octVal (c : Char) : Nat := c.toNat - 48

def digitVal (c : Char) : Nat := c.toNat - 48

/-- `str.isidentifier()` (ASCII): letter or underscore, then letters, digits
or underscores. -/
def pyIsIdentifier (s : List Char) : Bool :=
  match s with
  | [] => false
  | c :: cs => (c.isAlpha || c == '_') && cs.all (fun d => d.isAlphanum || d == '_')

/-- Digit run as accepted by `int()` after the sign: nonempty digits with
single underscores strictly between digits. -/
def udigitsRest : List Char → Bool
  | [] => true
  | c :: cs =>
    if c == '_' then
      match cs with
      | [] => false
      | d :: cs2 => d.isDigit && udigitsRest cs2
    else c.isDigit && udigitsRest cs

def udigits : List Char → Bool
  | [] => false
  | c :: cs => c.isDigit && udigitsRest cs

def digitsVal (s : List Char) : Nat :=
  (s.filter (fun c => c != '_')).foldl (fun a c => a * 10 + digitVal c) 0

def stripPyWs (s : List Char) : List Char :=
  ((s.dropWhile isWs).reverse.dropWhile isWs).reverse

/-- `int(name)` (ASCII): optional surrounding whitespace, optional sign,
underscore-separated digits; `none` models `ValueError`. -/
def pyIntOfStr (s : List Char) : Option Int :=
  let t := stripPyWs s
  match t with
  | [] => none
  | c :: r =>
    if c == '+' then (if udigits r then some (Int.ofNat (digitsVal r)) else none)
    else if c == '-' then (if udigits r then some (-(Int.ofNat (digitsVal r))) else none)
    else if udigits t then some (Int.ofNat (digitsVal t)) else none

def hexDigitCh (n : Nat) : Char :=
  if n < 10 then Char.ofNat (48 + n) else Char.ofNat (87 + n)

/-- One character of `repr(str)` (ASCII): escape the backslash, the chosen
quote, tab/newline/return, and other control characters as `\xNN`. -/
def pyReprChar (q c : Char) : List Char :=
  if c == bslash then [bslash, bslash]
  else if c == q then [bslash, q]
  else if c == '\t' then [bslash, 't']
  else if c == '\n' then [bslash, 'n']
  else if c == '\r' then [bslash, 'r']
  else if c.toNat < 32 || c.toNat == 127 then
    [bslash, 'x', hexDigitCh (c.toNat / 16), hexDigitCh (c.toNat % 16)]
  else [c]

/-- `repr(str)` (ASCII): single quotes, switching to double quotes when the
text contains a single quote but no double quote. -/
def pyRepr (s : List Char) : List Char :=
  let q := if s.contains squote && !(s.contains '"') then '"' else squote
  q :: ((s.map (pyReprChar q)).flatten ++ [q])

/-- A parsed replacement-template element: a literal chunk or a group
reference (CPython keeps literals and a group table; only the joined
expansion matters, so the chunking is immaterial). -/
inductive TemplPart where
  | lit : List Char → TemplPart
  | group : Nat → TemplPart
deriving Repr, DecidableEq

/-- `Tokenizer.__next`: one token, pairing a backslash with the following
character; a trailing lone backslash raises `bad escape (end of pattern)` at
position `len - 1`.  Returns the new lookahead, the remaining characters and
the index just past the lookahead (`self.index`). -/
def ptScan (t rest : List Char) (idx : Nat) :
    Except (List Char) (Option (List Char) × List Char × Nat) :=
  match rest with
  | [] => .ok (none, [], idx)
  | c :: cs =>
    if c == bslash then
      match cs with
      | [] => .error (emsgAt t (chars "bad escape (end of pattern)") (t.length - 1))
      | d :: ds => .ok (some [c, d], ds, idx + 2)
    else .ok (some [c], cs, idx + 1)

/-- `Tokenizer.tell()`: index minus the length of the lookahead. -/
def ptTell (la : Option (List Char)) (idx : Nat) : Nat :=
  idx - (la.elim 0 List.length)

/-- `Tokenizer.getuntil('>', 'group name')`: collect tokens into the name
until a bare `>` token, with the source's three error cases and offsets.
The fuel never runs out (each iteration consumes the lookahead). -/
def ptGetUntil (t : List Char) :
    Nat → Option (List Char) → List Char → Nat → List Char →
    Except (List Char) (List Char × Option (List Char) × List Char × Nat)
  | 0, _, _, _, _ => .error []
  | fuel + 1, la, rest, idx, acc =>
    match ptScan t rest idx with
    | .error e => .error e
    | .ok (la1, rest1, idx1) =>
      match la with
      | none =>
        if acc.isEmpty then .error (emsgAt t (chars "missing group name") (ptTell la1 idx1))
        else .error (emsgAt t (chars "missing >, unterminated name")
          (ptTell la1 idx1 - acc.length))
      | some tok =>
        if tok == ['>'] then
          if acc.isEmpty then
            .error (emsgAt t (chars "missing group name") (ptTell la1 idx1 - 1))
          else .ok (acc, la1, rest1, idx1)
        else ptGetUntil t fuel la1 rest1 idx1 (acc ++ tok)

/-- The lookahead as a single decimal-digit token, if it is one (a two-char
escape token is never `in DIGITS`). -/
def tokDigit : Option (List Char) → Option Char
  | some [c] => if c.isDigit then some c else none
  | _ => none

/-- The lookahead as a single octal-digit token, if it is one. -/
def tokOct : Option (List Char) → Option Char
  | some [c] => if isOct c then some c else none
  | _ => none

/-- Main loop of `parse_template`: one iteration per `sget()` token, covering
group references `\1`-`\99` (with the octal three-digit rule), octal escapes
`\0oo`, `\g<...>` names, the `ESCAPES` table, errors `bad escape` for other
ASCII letters, and unknown non-letter escapes left alone.  The fuel never
runs out (each iteration consumes the lookahead). -/
def ptLoop (t : List Char) (groups : Nat) :
    Nat → Option (List Char) → List Char → Nat → List TemplPart →
    Except (List Char) (List TemplPart)
  | 0, _, _, _, acc => .ok acc.reverse
  | fuel + 1, la, rest, idx, acc =>
    match ptScan t rest idx with
    | .error e => .error e
    | .ok (la1, rest1, idx1) =>
      match la with
      | none => .ok acc.reverse
      | some tok =>
        match tok with
        | [c] => ptLoop t groups fuel la1 rest1 idx1 (.lit [c] :: acc)
        | [b, c] =>
          if c == 'g' then
            if la1 == some ['<'] then
              match ptScan t rest1 idx1 with
              | .error e => .error e
              | .ok (la2, rest2, idx2) =>
                match ptGetUntil t (rest2.length + 2) la2 rest2 idx2 [] with
                | .error e => .error e
                | .ok (name, la3, rest3, idx3) =>
                  if pyIsIdentifier name then
                    .error (chars "unknown group name " ++ pyRepr name)
                  else
                    match pyIntOfStr name with
                    | none =>
                      .error (emsgAt t (chars "bad character in group name " ++ pyRepr name)
                        (ptTell la3 idx3 - (name.length + 1)))
                    | some v =>
                      if v < 0 then
                        .error (emsgAt t (chars "bad character in group name " ++ pyRepr name)
                          (ptTell la3 idx3 - (name.length + 1)))
                      else if 1073741823 ≤ v.toNat ∨ groups < v.toNat then
                        .error (emsgAt t (chars "invalid group reference " ++ natChars v.toNat)
                          (ptTell la3 idx3 - (name.length + 1)))
                      else ptLoop t groups fuel la3 rest3 idx3 (.group v.toNat :: acc)
            else .error (emsgAt t (chars "missing <") (ptTell la1 idx1))
          else if c == '0' then
            match tokOct la1 with
            | some d1 =>
              match ptScan t rest1 idx1 with
              | .error e => .error e
              | .ok (la2, rest2, idx2) =>
                match tokOct la2 with
                | some d2 =>
                  match ptScan t rest2 idx2 with
                  | .error e => .error e
                  | .ok (la3, rest3, idx3) =>
                    ptLoop t groups fuel la3 rest3 idx3
                      (.lit [Char.ofNat ((octVal d1 * 8 + octVal d2) % 256)] :: acc)
                | none =>
                  ptLoop t groups fuel la2 rest2 idx2 (.lit [Char.ofNat (octVal d1)] :: acc)
            | none => ptLoop t groups fuel la1 rest1 idx1 (.lit [Char.ofNat 0] :: acc)
          else if c.isDigit then
            match tokDigit la1 with
            | some d =>
              match ptScan t rest1 idx1 with
              | .error e => .error e
              | .ok (la2, rest2, idx2) =>
                match (if isOct c && isOct d then tokOct la2 else none) with
                | some d3 =>
                  match ptScan t rest2 idx2 with
                  | .error e => .error e
                  | .ok (la3, rest3, idx3) =>
                    if 255 < (octVal c * 8 + octVal d) * 8 + octVal d3 then
                      .error (emsgAt t (chars "octal escape value " ++ ([b, c, d, d3]
                        ++ chars " outside of range 0-0o377")) (ptTell la3 idx3 - 4))
                    else ptLoop t groups fuel la3 rest3 idx3
                      (.lit [Char.ofNat ((octVal c * 8 + octVal d) * 8 + octVal d3)] :: acc)
                | none =>
                  if groups < digitVal c * 10 + digitVal d then
                    .error (emsgAt t (chars "invalid group reference "
                      ++ natChars (digitVal c * 10 + digitVal d)) (ptTell la2 idx2 - 2))
                  else ptLoop t groups fuel la2 rest2 idx2
                    (.group (digitVal c * 10 + digitVal d) :: acc)
            | none =>
              if groups < digitVal c then
                .error (emsgAt t (chars "invalid group reference " ++ natChars (digitVal c))
                  (ptTell la1 idx1 - 1))
              else ptLoop t groups fuel la1 rest1 idx1 (.group (digitVal c) :: acc)
          else if c == 'a' then ptLoop t groups fuel la1 rest1 idx1 (.lit [Char.ofNat 7] :: acc)
          else if c == 'b' then ptLoop t groups fuel la1 rest1 idx1 (.lit [Char.ofNat 8] :: acc)
          else if c == 'f' then ptLoop t groups fuel la1 rest1 idx1 (.lit [Char.ofNat 12] :: acc)
          else if c == 'n' then ptLoop t groups fuel la1 rest1 idx1 (.lit ['\n'] :: acc)
          else if c == 'r' then ptLoop t groups fuel la1 rest1 idx1 (.lit [Char.ofNat 13] :: acc)
          else if c == 't' then ptLoop t groups fuel la1 rest1 idx1 (.lit ['\t'] :: acc)
          else if c == 'v' then ptLoop t groups fuel la1 rest1 idx1 (.lit [Char.ofNat 11] :: acc)
          else if c == bslash then ptLoop t groups fuel la1 rest1 idx1 (.lit [bslash] :: acc)
          else if c.isAlpha then
            .error (emsgAt t (chars "bad escape " ++ [b, c]) (ptTell la1 idx1 - 2))
          else ptLoop t groups fuel la1 rest1 idx1 (.lit [b, c] :: acc)
        | _ => .ok acc.reverse

/-- `parse_template(source, pattern)` for a pattern with `groups` capturing
groups and no named groups (the Init-placeholder pattern has two, unnamed). -/
def parseTemplate (groups : Nat) (t : List Char) : Except (List Char) (List TemplPart) :=
  match ptScan t t 0 with
  | .error e => .error e
  | .ok (la, rest, idx) => ptLoop t groups (t.length + 2) la rest idx []

/-- `expand_template` for one match of the Init-placeholder pattern: group 0
is the whole match, groups 1 and 2 its captures (both always participate). -/
def expandTemplate (parts : List TemplPart) (g0 g1 g2 : List Char) : List Char :=
  (parts.map (fun p =>
    match p with
    | .lit s => s
    | .group 0 => g0
    | .group 1 => g1
    | .group 2 => g2
    | .group _ => [])).flatten

/-- The replacement string `r'\1\n' + registration_code + r'\2'`
(L3 line 264). -/
def templateOf (registration_code : List Char) : List Char :=
  [bslash, '1', bslash, 'n'] ++ (registration_code ++ [bslash, '2'])

/-- `pattern.sub` (L3 line 265) with a successfully parsed template,
fuel-indexed so that it computes by structural recursion; the fuel never runs
out when it starts at the length of the text. -/
def subF (parts : List TemplPart) : Nat → List Char → List Char
  | 0, l => l
  | _, [] => []
  | fuel + 1, c :: cs =>
    match matchInitHere (c :: cs) with
    | some (g1, g2, mid, rest) =>
      expandTemplate parts (g1 ++ (mid ++ g2)) g1 g2 ++ subF parts fuel rest
    | none => c :: subF parts fuel cs

def patternSub (parts : List TemplPart) (l : List Char) : List Char :=
  subF parts l.length l

lemma subF_irrel (parts : List TemplPart) :
    ∀ (n : Nat) (l : List Char) (m : Nat), l.length ≤ n → l.length ≤ m →
      subF parts n l = subF parts m l := by
  intro n
  induction n with
  | zero =>
    intro l m hn _
    have hl : l = [] := List.eq_nil_of_length_eq_zero (Nat.le_zero.1 hn)
    subst hl
    cases m with
    | zero => rfl
    | succ m => rfl
  | succ n ih =>
    intro l m hn hm
    cases l with
    | nil => cases m with
      | zero => rfl
      | succ m => rfl
    | cons c cs =>
      cases m with
      | zero => exact absurd hm (by simp)
      | succ m =>
        rw [subF, subF]
        cases hmi : matchInitHere (c :: cs) with
        | none =>
          simp only [List.length_cons, Nat.succ_le_succ_iff] at hn hm
          rw [ih cs m hn hm]
        | some t4 =>
          obtain ⟨g1, g2, mid, rest⟩ := t4
          have hlt := matchInitHere_rest_lt hmi
          simp only [List.length_cons] at hlt hn hm
          dsimp only
          rw [ih rest m (by omega) (by omega)]

lemma patternSub_cons_none {parts : List TemplPart} {c : Char} {cs : List Char}
    (h : matchInitHere (c :: cs) = none) :
    patternSub parts (c :: cs) = c :: patternSub parts cs := by
  rw [patternSub, patternSub, List.length_cons, subF, h]

lemma patternSub_cons_some {parts : List TemplPart} {g1 g2 mid rest : List Char}
    {c : Char} {cs : List Char}
    (h : matchInitHere (c :: cs) = some (g1, g2, mid, rest)) :
    patternSub parts (c :: cs)
      = expandTemplate parts (g1 ++ (mid ++ g2)) g1 g2 ++ patternSub parts rest := by
  have hlt := matchInitHere_rest_lt h
  simp only [List.length_cons] at hlt
  rw [patternSub, patternSub, List.length_cons, subF, h]
  dsimp only
  rw [subF_irrel parts cs.length rest rest.length (by omega) le_rfl]

lemma patternSub_id_of_no_match {parts : List TemplPart} :
    ∀ l : List Char, (∀ i, matchInitHere (l.drop i) = none) → patternSub parts l = l := by
  intro l
  induction l with
  | nil => intro _; rfl
  | cons c cs ih =>
    intro h
    rw [patternSub_cons_none (h 0), ih (fun i => h (i + 1))]

/-- Embedding of `update_server_factory_init` (L3 lines 194-280) at the level
of the init file's text: the existence check on `ServerFactoryInit.h` and the
file I/O are not modelled; the function takes the file content and returns the
final content, the `success` flag and the `error` field.  An invalid
replacement template makes `pattern.sub` (L3 line 265) raise into the blanket
`except` (L3 lines 277-278), wrapping the exception text; the raise happens at
the `sub` call, after the include insertion, but the insertion is local and
unwritten, so parsing the template first is observationally identical. -/
def update_server_factory_init (content registration_code include_statements : List Char) :
    (List Char × Bool × Option String) :=
  match parseTemplate 2 (templateOf registration_code) with
  | .error e =>
    (content, false, some ("Error updating ServerFactoryInit.h: " ++ String.mk e))
  | .ok parts =>
    let c1 := if include_statements.isEmpty then content
      else insertIncludes include_statements content
    let nc := patternSub parts c1
    if nc == c1 && include_statements.isEmpty then
      (c1, false, some "Could not find placeholder Init() function to replace")
    else (nc, true, none)

/-- C1 counterexample: with a non-empty include block and a template that has
no placeholder at all, the call still reports success with no error and writes
the template back unchanged (the includes are not even inserted), so success
does not require the placeholder substitution to succeed; with an empty
include block and a template whose placeholder is present but whose
substitution happens to be a textual no-op, the call reports the distinct
placeholder error even though the placeholder is found (also through a `\040`
octal replacement escape expanding to a space); and registration code with the
invalid replacement escape `\q` makes `pattern.sub` raise, so the call fails
with the wrapped `re.error` text even though an include block is supplied. -/
theorem update_server_factory_init_counterexample :
    (update_server_factory_init (chars "int x;\n") (chars "    return true;")
        (chars "#include \"x.h\"")).2.1 = true ∧
    (update_server_factory_init (chars "int x;\n") (chars "    return true;")
        (chars "#include \"x.h\"")).2.2 = none ∧
    findInit (chars "int x;\n") = none ∧
    (update_server_factory_init (chars "int x;\n") (chars "    return true;")
        (chars "#include \"x.h\"")).1 = chars "int x;\n" ∧
    (findInit (chars "inline Bool Init() \x7b\n    return false;\n\x7d")).isSome = true ∧
    (update_server_factory_init (chars "inline Bool Init() \x7b\n    return false;\n\x7d")
        (chars "    return false;") []).2.2
      = some "Could not find placeholder Init() function to replace" ∧
    (update_server_factory_init (chars "inline Bool Init() \x7b\n    return false;\n\x7d")
        (chars "    return\\040false;") []).2.2
      = some "Could not find placeholder Init() function to replace" ∧
    (update_server_factory_init (chars "inline Bool Init() \x7b\n    return false;\n\x7d")
        (chars "\\q") (chars "#include \"x.h\"")).2.1 = false ∧
    (update_server_factory_init (chars "inline Bool Init() \x7b\n    return false;\n\x7d")
        (chars "\\q") (chars "#include \"x.h\"")).2.2
      = some "Error updating ServerFactoryInit.h: bad escape \\q at position 4" := by
  decide

/-- C1 (amended): with a parseable replacement template, the call reports the
distinct placeholder error exactly when the include block is empty and the
placeholder substitution leaves the text unchanged (in particular whenever the
placeholder cannot be found and no include block was supplied), any error is
that one message, a non-empty include block forces success regardless of the
placeholder, and when the placeholder is not found the substitution is a
no-op and the text is returned unchanged; with an invalid replacement
template (a replacement escape the `re.sub` template parser rejects, such as
`\q` or `\9` in the registration code), the call fails with the wrapped
exception text even when an include block is supplied; and success holds
exactly when no error is reported. -/
theorem update_server_factory_init_error_iff :
    ∀ (content registration_code include_statements : List Char),
      (∀ parts, parseTemplate 2 (templateOf registration_code) = .ok parts →
        (((update_server_factory_init content registration_code include_statements).2.2 ≠ none ↔
            include_statements = [] ∧ patternSub parts content = content) ∧
          ((update_server_factory_init content registration_code include_statements).2.2 ≠ none →
            (update_server_factory_init content registration_code include_statements).2.2
              = some "Could not find placeholder Init() function to replace") ∧
          (include_statements ≠ [] →
            (update_server_factory_init content registration_code include_statements).2.1
              = true) ∧
          (findInit content = none →
            patternSub parts content = content
              ∧ (update_server_factory_init content registration_code include_statements).1
                  = content))) ∧
      (∀ msg, parseTemplate 2 (templateOf registration_code) = .error msg →
        ((update_server_factory_init content registration_code include_statements).2.1
            = false ∧
          (update_server_factory_init content registration_code include_statements).2.2
            = some ("Error updating ServerFactoryInit.h: " ++ String.mk msg) ∧
          (update_server_factory_init content registration_code include_statements).1
            = content)) ∧
      ((update_server_factory_init content registration_code include_statements).2.1 = true ↔
        (update_server_factory_init content registration_code include_statements).2.2
          = none) := by
  intro content registration_code include_statements
  cases hp : parseTemplate 2 (templateOf registration_code) with
  | error e =>
    have hunf : update_server_factory_init content registration_code include_statements
        = (content, false,
           some ("Error updating ServerFactoryInit.h: " ++ String.mk e)) := by
      simp only [update_server_factory_init, hp]
    refine ⟨?_, ?_, ?_⟩
    · intro parts hok
      exact Except.noConfusion hok
    · intro msg hmsg
      injection hmsg with hme
      subst hme
      exact ⟨by rw [hunf], by rw [hunf], by rw [hunf]⟩
    · rw [hunf]
      simp
  | ok parts0 =>
    have hok0 : ∀ parts : List TemplPart,
        (Except.ok parts0 : Except (List Char) (List TemplPart)) = Except.ok parts →
        parts = parts0 := by
      intro parts hok
      injection hok with hpe
      exact hpe.symm
    by_cases he : include_statements = []
    · have hie : include_statements.isEmpty = true := by simp [he]
      by_cases hsub : patternSub parts0 content = content
      · have hunf : update_server_factory_init content registration_code include_statements
            = (content, false,
               some "Could not find placeholder Init() function to replace") := by
          simp [update_server_factory_init, hp, hie, hsub]
        refine ⟨?_, fun msg hmsg => Except.noConfusion hmsg, ?_⟩
        · intro parts hok
          have hpe := hok0 parts hok
          subst hpe
          refine ⟨?_, fun _ => by rw [hunf], ?_, ?_⟩
          · rw [hunf]
            simp [he, hsub]
          · intro h
            exact absurd he h
          · intro _
            exact ⟨hsub, by rw [hunf]⟩
        · rw [hunf]
          simp
      · have hunf : update_server_factory_init content registration_code include_statements
            = (patternSub parts0 content, true, none) := by
          simp [update_server_factory_init, hp, hie, hsub]
        refine ⟨?_, fun msg hmsg => Except.noConfusion hmsg, ?_⟩
        · intro parts hok
          have hpe := hok0 parts hok
          subst hpe
          refine ⟨?_, ?_, ?_, ?_⟩
          · rw [hunf]
            simp [hsub]
          · rw [hunf]
            intro h
            exact absurd rfl h
          · intro h
            exact absurd he h
          · intro hfn
            exact absurd (patternSub_id_of_no_match content
              (findInitAux_none content 0 hfn)) hsub
        · rw [hunf]
          simp
    · have hie : include_statements.isEmpty = false := by simp [he]
      have hunf : update_server_factory_init content registration_code include_statements
          = (patternSub parts0 (insertIncludes include_statements content),
             true, none) := by
        simp [update_server_factory_init, hp, hie]
      refine ⟨?_, fun msg hmsg => Except.noConfusion hmsg, ?_⟩
      · intro parts hok
        have hpe := hok0 parts hok
        subst hpe
        refine ⟨?_, ?_, fun _ => by rw [hunf], ?_⟩
        · rw [hunf]
          simp [he]
        · rw [hunf]
          intro h
          exact absurd rfl h
        · intro hfn
          have hid : insertIncludes include_statements content = content := by
            rw [insertIncludes, hfn]
          have hsub := @patternSub_id_of_no_match parts
            content (findInitAux_none content 0 hfn)
          refine ⟨hsub, ?_⟩
          rw [hunf, hid, hsub]
      · rw [hunf]
        simp

/-- Witness for C1: a template without the placeholder and a non-empty include
block yield success with the text unchanged, and the substitution with the
parsed template is a no-op on it. -/
theorem update_server_factory_init_error_iff_witness :
    (update_server_factory_init (chars "int y;\n") (chars "r")
        (chars "#include \"y.h\"")).2.1 = true ∧
    patternSub [TemplPart.group 1, TemplPart.lit [Char.ofNat 10], TemplPart.lit [Char.ofNat 114],
        TemplPart.group 2] (chars "int y;\n") = chars "int y;\n" ∧
    (update_server_factory_init (chars "int y;\n") (chars "r")
        (chars "#include \"y.h\"")).1 = chars "int y;\n" := by
  have h := (update_server_factory_init_error_iff (chars "int y;\n") (chars "r")
    (chars "#include \"y.h\"")).1
    [TemplPart.group 1, TemplPart.lit [Char.ofNat 10], TemplPart.lit [Char.ofNat 114],
     TemplPart.group 2] rfl
  exact ⟨h.2.2.1 (by decide), (h.2.2.2 (by decide)).1, (h.2.2.2 (by decide)).2⟩

lemma occursAt_big {pat l : List Char} {stop j : Nat} (h : stop < j + pat.length) :
    occursAt pat l stop j = false := by
  rw [occursAt, decide_eq_false (by omega), Bool.false_and]

/-- Written from the claim's wording, to compare with `insertPos`: `np` is the
position immediately after the first newline at or after `i`, or `0` when no
newline follows `i`. -/
def afterNewlineSpec (c : List Char) (i np : Nat) : Prop :=
  (np = 0 ∧ ∀ j, i ≤ j → occursAt ['\n'] c c.length j = false) ∨
  (∃ j, np = j + 1 ∧ i ≤ j ∧ occursAt ['\n'] c c.length j = true
    ∧ ∀ k, i ≤ k → k < j → occursAt ['\n'] c c.length k = false)

/-- Written from the claim's wording: `ce` is the position right after the
first `*/` at or after `i`, or `1` when there is none. -/
def commentEndSpec (c : List Char) (i ce : Nat) : Prop :=
  (ce = 1 ∧ ∀ j, i ≤ j → occursAt (chars "*/") c c.length j = false) ∨
  (∃ j, ce = j + 2 ∧ i ≤ j ∧ occursAt (chars "*/") c c.length j = true
    ∧ ∀ k, i ≤ k → k < j → occursAt (chars "*/") c c.length k = false)

/-- Written from the claim's wording: `p` is reached from `np` by skipping
whitespace characters (one character at a time, not whole blank lines) while
still before `stop`. -/
def wsSkipSpec (c : List Char) (stop np p : Nat) : Prop :=
  np ≤ p ∧ (∀ k, np ≤ k → k < p → (k < stop ∧ emptyStripAt c k = true))
    ∧ ¬(p < stop ∧ emptyStripAt c p = true)


lemma afterNewline_some {c : List Char} {i j : Nat}
    (h : findIdxFrom ['\n'] c i = some j) : afterNewlineSpec c i (j + 1) := by
  obtain ⟨h1, _, h3, h4⟩ := (ffindFrom_some_iff ['\n'] c _ i j).1 h
  exact Or.inr ⟨j, rfl, h1, h3, fun k hk1 hk2 => h4 k hk1 hk2⟩

lemma afterNewline_none {c : List Char} {i : Nat}
    (h : findIdxFrom ['\n'] c i = none) : afterNewlineSpec c i 0 := by
  refine Or.inl ⟨rfl, ?_⟩
  intro j hj
  rcases Nat.lt_or_ge j (i + (c.length + 1 - i)) with hlt | hge
  · exact (ffindFrom_none_iff ['\n'] c _ i).1 h j hj hlt
  · exact occursAt_big (by simp only [List.length_cons, List.length_nil]; omega)

lemma commentEnd_some {c : List Char} {i j : Nat}
    (h : findIdxFrom (chars "*/") c i = some j) : commentEndSpec c i (j + 2) := by
  obtain ⟨h1, _, h3, h4⟩ := (ffindFrom_some_iff (chars "*/") c _ i j).1 h
  exact Or.inr ⟨j, rfl, h1, h3, fun k hk1 hk2 => h4 k hk1 hk2⟩

lemma commentEnd_none {c : List Char} {i : Nat}
    (h : findIdxFrom (chars "*/") c i = none) : commentEndSpec c i 1 := by
  refine Or.inl ⟨rfl, ?_⟩
  intro j hj
  rcases Nat.lt_or_ge j (i + (c.length + 1 - i)) with hlt | hge
  · exact (ffindFrom_none_iff (chars "*/") c _ i).1 h j hj hlt
  · refine occursAt_big ?_
    have h2 : (chars "*/").length = 2 := rfl
    omega

/-- C8 (amended): with a non-empty include block and the placeholder found at
position `s`, the processed text is the text with the include block and a
blank-line separator spliced at `insertPos c s` (and, whenever the replacement
template parses, the final output is the substitution applied to it); and
`insertPos c s` follows the anchor priority — from the last `#include`
occurrence before the placeholder (then from the position right after that
occurrence's following newline, or from position `0` when no newline follows),
else from the end of the last `/**` before the placeholder, else exactly `s` —
where in the first two cases the final position is obtained by skipping
individual whitespace characters (not whole blank lines) while before `s`. -/
theorem update_init_insert_anchor :
    ∀ (c includes regCode : List Char) (s : Nat),
      includes ≠ [] → findInit c = some s →
      (insertIncludes includes c
          = c.take (insertPos c s) ++ (includes ++ (chars "\n\n" ++ c.drop (insertPos c s))) ∧
        ∀ parts, parseTemplate 2 (templateOf regCode) = Except.ok parts →
          (update_server_factory_init c regCode includes).1
            = patternSub parts
                (c.take (insertPos c s)
                  ++ (includes ++ (chars "\n\n" ++ c.drop (insertPos c s))))) ∧
      ((∃ i, occursAt (chars "#include") c s i = true) →
        ∃ i np, occursAt (chars "#include") c s i = true
          ∧ (∀ j, occursAt (chars "#include") c s j = true → j ≤ i)
          ∧ afterNewlineSpec c i np
          ∧ wsSkipSpec c s np (insertPos c s)) ∧
      ((∀ i, occursAt (chars "#include") c s i = false) →
        (∃ i, occursAt (chars "/**") c s i = true) →
        ∃ i ce np, occursAt (chars "/**") c s i = true
          ∧ (∀ j, occursAt (chars "/**") c s j = true → j ≤ i)
          ∧ commentEndSpec c i ce ∧ afterNewlineSpec c ce np
          ∧ wsSkipSpec c s np (insertPos c s)) ∧
      ((∀ i, occursAt (chars "#include") c s i = false) →
        (∀ i, occursAt (chars "/**") c s i = false) →
        insertPos c s = s) := by
  intro c includes regCode s hinc hfind
  have hie : includes.isEmpty = false := by simp [hinc]
  refine ⟨?_, ?_, ?_, ?_⟩
  · have hii : insertIncludes includes c
        = c.take (insertPos c s) ++ (includes ++ (chars "\n\n" ++ c.drop (insertPos c s))) := by
      simp only [insertIncludes, hfind]
    refine ⟨hii, ?_⟩
    intro parts hok
    have hunf : update_server_factory_init c regCode includes
        = (patternSub parts (insertIncludes includes c), true, none) := by
      simp [update_server_factory_init, hok, hie]
    rw [hunf, hii]
  · intro ⟨i0, hi0⟩
    have hle0 : i0 ≤ s := by
      rw [occursAt, Bool.and_eq_true, decide_eq_true_eq] at hi0
      omega
    cases hr : rfindIdx (chars "#include") c s with
    | none =>
      exact absurd hi0 (by simp [(rfindFrom_none_iff _ c s s).1 hr i0 hle0])
    | some i =>
      obtain ⟨hi1, hi2, hi3⟩ := (rfindFrom_some_iff _ c s s i).1 hr
      have hmax : ∀ j, occursAt (chars "#include") c s j = true → j ≤ i := by
        intro j hj
        have hjs : j ≤ s := by
          rw [occursAt, Bool.and_eq_true, decide_eq_true_eq] at hj
          omega
        by_contra hgt
        exact absurd hj (by simp [hi3 j (by omega) hjs])
      cases hn : findIdxFrom ['\n'] c i with
      | some j =>
        have hip : insertPos c s = skipWs c s (j + 1) := by
          simp only [insertPos, hr, hn]
        rw [hip]
        exact ⟨i, j + 1, hi2, hmax, afterNewline_some hn, skipWs_spec c s (j + 1)⟩
      | none =>
        have hip : insertPos c s = skipWs c s 0 := by
          simp only [insertPos, hr, hn]
        rw [hip]
        exact ⟨i, 0, hi2, hmax, afterNewline_none hn, skipWs_spec c s 0⟩
  · intro hnone ⟨i0, hi0⟩
    have hr : rfindIdx (chars "#include") c s = none :=
      (rfindFrom_none_iff _ c s s).2 (fun j _ => hnone j)
    have hle0 : i0 ≤ s := by
      rw [occursAt, Bool.and_eq_true, decide_eq_true_eq] at hi0
      omega
    cases hc : rfindIdx (chars "/**") c s with
    | none =>
      exact absurd hi0 (by simp [(rfindFrom_none_iff _ c s s).1 hc i0 hle0])
    | some i =>
      obtain ⟨hi1, hi2, hi3⟩ := (rfindFrom_some_iff _ c s s i).1 hc
      have hmax : ∀ j, occursAt (chars "/**") c s j = true → j ≤ i := by
        intro j hj
        have hjs : j ≤ s := by
          rw [occursAt, Bool.and_eq_true, decide_eq_true_eq] at hj
          omega
        by_contra hgt
        exact absurd hj (by simp [hi3 j (by omega) hjs])
      cases hce : findIdxFrom (chars "*/") c i with
      | some j =>
        cases hn : findIdxFrom ['\n'] c (j + 2) with
        | some j' =>
          have hip : insertPos c s = skipWs c s (j' + 1) := by
            simp only [insertPos, hr, hc, hce, hn]
          rw [hip]
          exact ⟨i, j + 2, j' + 1, hi2, hmax, commentEnd_some hce,
            afterNewline_some hn, skipWs_spec c s (j' + 1)⟩
        | none =>
          have hip : insertPos c s = skipWs c s 0 := by
            simp only [insertPos, hr, hc, hce, hn]
          rw [hip]
          exact ⟨i, j + 2, 0, hi2, hmax, commentEnd_some hce,
            afterNewline_none hn, skipWs_spec c s 0⟩
      | none =>
        cases hn : findIdxFrom ['\n'] c 1 with
        | some j' =>
          have hip : insertPos c s = skipWs c s (j' + 1) := by
            simp only [insertPos, hr, hc, hce, hn]
          rw [hip]
          exact ⟨i, 1, j' + 1, hi2, hmax, commentEnd_none hce,
            afterNewline_some hn, skipWs_spec c s (j' + 1)⟩
        | none =>
          have hip : insertPos c s = skipWs c s 0 := by
            simp only [insertPos, hr, hc, hce, hn]
          rw [hip]
          exact ⟨i, 1, 0, hi2, hmax, commentEnd_none hce,
            afterNewline_none hn, skipWs_spec c s 0⟩
  · intro h1 h2
    have hr : rfindIdx (chars "#include") c s = none :=
      (rfindFrom_none_iff _ c s s).2 (fun j _ => h1 j)
    have hc : rfindIdx (chars "/**") c s = none :=
      (rfindFrom_none_iff _ c s s).2 (fun j _ => h2 j)
    simp only [insertPos, hr, hc]

/-- C8 counterexample: a template whose last include directive is followed by
an indented non-blank line.  The whitespace-skipping loop walks over the
indentation of that line (not over blank lines), so the include block is
spliced at position 17, in the middle of the `  int x;` line — not immediately
after the last directive (position 15) — splitting that line's indentation
from its text. -/
theorem update_init_insert_counterexample :
    findInit (chars "#include \"a.h\"\n  int x;\ninline Bool Init() \x7b\n    return false;\n\x7d")
      = some 24 ∧
    rfindIdx (chars "#include")
        (chars "#include \"a.h\"\n  int x;\ninline Bool Init() \x7b\n    return false;\n\x7d") 24
      = some 0 ∧
    findIdxFrom ['\n']
        (chars "#include \"a.h\"\n  int x;\ninline Bool Init() \x7b\n    return false;\n\x7d") 0
      = some 14 ∧
    insertPos (chars "#include \"a.h\"\n  int x;\ninline Bool Init() \x7b\n    return false;\n\x7d") 24
      = 17 ∧
    (chars "#include \"a.h\"\n  int x;\ninline Bool Init() \x7b\n    return false;\n\x7d").take 17
      = chars "#include \"a.h\"\n  " ∧
    ((chars "#include \"a.h\"\n  int x;\ninline Bool Init() \x7b\n    return false;\n\x7d").drop 15).take 9
      = chars "  int x;\n" ∧
    insertIncludes (chars "#include \"n.h\"")
        (chars "#include \"a.h\"\n  int x;\ninline Bool Init() \x7b\n    return false;\n\x7d")
      = chars "#include \"a.h\"\n  #include \"n.h\"\n\nint x;\ninline Bool Init() \x7b\n    return false;\n\x7d" := by
  decide

/-- Witness for C8: a template with one include directive followed by a blank
line; the includes land right after the skipped blank line, before the
placeholder, separated by a blank line, and the placeholder body is replaced. -/
theorem update_init_insert_anchor_witness :
    (update_server_factory_init
        (chars "#include \"a.h\"\n\ninline Bool Init() \x7b\n    return false;\n\x7d")
        (chars "    return true;") (chars "#include \"n.h\"")).1
      = chars "#include \"a.h\"\n\n#include \"n.h\"\n\ninline Bool Init() \x7b\n    return true;\n\x7d" := by
  have h := update_init_insert_anchor
    (chars "#include \"a.h\"\n\ninline Bool Init() \x7b\n    return false;\n\x7d")
    (chars "#include \"n.h\"") (chars "    return true;") 16 (by decide) (by decide)
  rw [h.1.2 (TemplPart.group 1
    :: ((chars "\n    return true;").map (fun c => TemplPart.lit [c])
      ++ [TemplPart.group 2])) rfl]
  decide
